import Mathlib

/-!
# proxyt: transparent proxy over an upstream CONNECT proxy

A shallow embedding of `proxyt.c` (the listener loop of `main`, the flow handler
`accepter`, the pump `writer`, and the helpers `iread` / `iwrite`) together with
the properties of the forwarding engine that are stated in the specification.

Conventions of the embedding

* A C `int` is an `Int`; arithmetic that can leave the 32-bit range goes through
  `wrap32`.  Division of C integers is `Int.tdiv` (truncation towards zero).
* A byte is a `Nat` (its unsigned value); a buffer is the list of the bytes that
  have been stored in it, index `i` of the list being `buf[i]`.
* A descriptor that is read from is the list of what the kernel will hand out
  (`ReadEv`); a descriptor that is written to is the list of the results the
  kernel will give (`WriteEv`).  Pure state passing: every call returns what is
  left of the list.
* The handler returns the sequence of externally visible actions it performs
  (`Event`), in program order.
-/

namespace Proxyt

/-! ## Machine integers -/

/-- Two's-complement value of a C `int` after an arithmetic step. -/
def wrap32 (x : Int) : Int := (x + 2147483648) % 4294967296 - 2147483648

/-- Largest value of a C `int`. -/
def INT_MAX : Int := 2147483647

/-! ## Data model -/

/-- The part of `struct sockaddr_in` the program looks at.  `sin_addr` is the
32-bit `s_addr`, `sin_port` the port as printed (`ntohs (sin_port)`). -/
structure sockaddr_in where
  sin_addr : Nat
  sin_port : Nat
deriving DecidableEq, Repr

/-- The flow record `struct proxy`.  The field `local` of the source is
`local_`, a reserved word being unavailable. -/
structure proxy where
  sin : sockaddr_in
  local_ : Int
  remote : Int
  serial : Int
  sent : Int
  recv : Int
deriving DecidableEq, Repr

/-- The two counters that `conn_mutex` guards. -/
structure Globals where
  connections : Int
  conn_serial : Int
deriving DecidableEq, Repr

/-- Priorities handed to `logger`. -/
inductive Pri where
  | LOG_CRIT
  | LOG_ERR
  | LOG_WARNING
  | LOG_INFO
deriving DecidableEq, Repr

/-- The context strings given to `iread` / `iwrite`. -/
inductive Ctx where
  | proxy_read
  | local_read
  | remote_read
  | local_write
  | remote_write
deriving DecidableEq, Repr

/-- The records the program logs, one constructor per format string. -/
inductive Msg where
  | too_many_connections (max : Int)
  | cannot_get_original
  | connect (serial : Int) (dst : sockaddr_in)
  | loop_detected
  | proxy_connect
  | bad_proxy_response (dst : sockaddr_in) (line : List Nat)
  | disconnect (serial : Int) (sent_kB : Int) (recv_kB : Int)
  | io_failure (ctx : Ctx)
deriving DecidableEq, Repr

/-- The two thread bodies of the program. -/
inductive Thread where
  | accepter
  | writer
deriving DecidableEq, Repr

/-- Externally visible actions, in the order the code performs them. -/
inductive Event where
  | logger (pri : Pri) (msg : Msg)
  | getsockopt (fd : Int)
  | socket (ret : Int)
  | connect (fd : Int) (ret : Int)
  | iread (fd : Int) (count : Nat) (ret : Int) (bytes : List Nat)
  | write (fd : Int) (buf : List Nat) (ret : Int)
  | iwrite (fd : Int) (buf : List Nat) (ret : Int)
  | shutdown_wr (fd : Int)
  | pthread_create (body : Thread)
  | pthread_join
  | mutex_lock
  | mutex_unlock
  | close (fd : Int)
  | free
  | pthread_exit
deriving DecidableEq, Repr

/-! ## Descriptors -/

/-- What a readable descriptor will deliver next: a non-empty segment of bytes,
an interruption by a signal (`EINTR`), or a hard error.  The end of the list is
the orderly end of the stream. -/
inductive ReadEv where
  | data (b : Nat) (bs : List Nat)
  | eintr
  | error
deriving DecidableEq, Repr

/-- What a `write` call will return next: the number of bytes taken, an
interruption by a signal (`EINTR`), or a hard error.  Once the list is used up
the peer is gone and every further `write` fails. -/
inductive WriteEv where
  | ret (m : Nat)
  | eintr
  | error
deriving DecidableEq, Repr

/-- Outcome of one `read` / `iread` call: the return value, whether `errno` is
`EINTR`, the bytes placed in the buffer, and what is left in the descriptor. -/
structure ReadResult where
  n : Int
  errno_EINTR : Bool
  bytes : List Nat
  rest : List ReadEv
deriving DecidableEq, Repr

/-- Outcome of one `write` / `iwrite` call. -/
structure WriteResult where
  n : Int
  errno_EINTR : Bool
  rest : List WriteEv
deriving DecidableEq, Repr

/-- Bytes of a segment that a short read left behind stay at the head of the
descriptor. -/
def pushback : List Nat → List ReadEv → List ReadEv
  | [], r => r
  | b :: bs, r => ReadEv.data b bs :: r

/-- The system call `read (fd, buf, count)`: at most `count` bytes of the
segment at the head of the descriptor. -/
def read (count : Nat) : List ReadEv → ReadResult
  | [] => ⟨0, false, [], []⟩
  | ReadEv.eintr :: r => ⟨-1, true, [], r⟩
  | ReadEv.error :: r => ⟨-1, false, [], r⟩
  | ReadEv.data b bs :: r =>
      ⟨((b :: bs).take count).length, false, (b :: bs).take count,
        pushback ((b :: bs).drop count) r⟩

/-- The system call `write (fd, buf, count)`: the next scripted result.  The
bytes taken are the first `n` of the buffer (see `wire`); the kernel never
returns more than `count`. -/
def write : List WriteEv → WriteResult
  | [] => ⟨-1, false, []⟩
  | WriteEv.eintr :: r => ⟨-1, true, r⟩
  | WriteEv.error :: r => ⟨-1, false, r⟩
  | WriteEv.ret m :: r => ⟨m, false, r⟩

/-- `iread`: `do n = read (fd, buf, count); while (n < 0 && errno == EINTR)`. -/
def iread (count : Nat) : List ReadEv → ReadResult
  | [] => read count []
  | ReadEv.eintr :: r => iread count r
  | ReadEv.error :: r => read count (ReadEv.error :: r)
  | ReadEv.data b bs :: r => read count (ReadEv.data b bs :: r)

/-- `iwrite`: `do n = write (fd, buf, count); while (n < 0 && errno == EINTR)`. -/
def iwrite : List WriteEv → WriteResult
  | [] => write []
  | WriteEv.eintr :: r => iwrite r
  | WriteEv.error :: r => write (WriteEv.error :: r)
  | WriteEv.ret m :: r => write (WriteEv.ret m :: r)

/-- The warning `iread` and `iwrite` log when they return a negative value. -/
def io_warning (n : Int) (ctx : Ctx) : List Event :=
  if n < 0 then [Event.logger Pri.LOG_WARNING (Msg.io_failure ctx)] else []

/-- Units of work a descriptor can still give: one per byte and one per
interruption or error. -/
def sockSize : List ReadEv → Nat
  | [] => 0
  | ReadEv.data _ bs :: r => bs.length + 1 + sockSize r
  | ReadEv.eintr :: r => 1 + sockSize r
  | ReadEv.error :: r => 1 + sockSize r

/-- The bytes a descriptor delivers before its first hard error or its end,
whatever the segmentation and the interruptions. -/
def streamOf : List ReadEv → List Nat
  | [] => []
  | ReadEv.data b bs :: r => b :: bs ++ streamOf r
  | ReadEv.eintr :: r => streamOf r
  | ReadEv.error :: _ => []

/-! ## The CONNECT handshake: reading the response header block -/

/-- Result of the header scan of `accepter` (lines 239-250): whether the loop
left through `n >= 2`, the bytes stored in `buf` (byte `i` at `buf[i]`; the
terminating NUL goes to index `buf.length`), the descriptor afterwards and the
actions performed. -/
structure ScanResult where
  stopped : Bool
  buf : List Nat
  rest : List ReadEv
  trace : List Event
deriving DecidableEq, Repr

/-- The loop `while (n < 2) { if (iread (remote, ptr, 1) != 1) goto done; ... ptr++; }`.
The first argument bounds the number of iterations.  The list `buf` grows with
every store: the loop does not test `ptr` against the 8192 bytes of the array. -/
def scan_loop (fd : Int) : Nat → Int → List Nat → List ReadEv → ScanResult
  | 0, _, buf, sock => ⟨false, buf, sock, []⟩
  | fuel + 1, n, buf, sock =>
    if n < 2 then
      let r := iread 1 sock
      let ev := Event.iread fd 1 r.n r.bytes :: io_warning r.n Ctx.proxy_read
      if r.n ≠ 1 then ⟨false, buf, r.rest, ev⟩
      else
        let c := r.bytes.headD 0
        let n1 := if c = 10 then n + 1 else if c ≠ 13 then 0 else n
        let s := scan_loop fd fuel n1 (buf ++ [c]) r.rest
        ⟨s.stopped, s.buf, s.rest, ev ++ s.trace⟩
    else ⟨true, buf, sock, []⟩

/-- The header scan with `n = 0; ptr = buf;` in front. -/
def scan_header (fd : Int) (sock : List ReadEv) : ScanResult :=
  scan_loop fd (sockSize sock + 1) 0 [] sock

/-! ## The CONNECT handshake: the status check -/

/-- The C string that starts at `buf`: the bytes in front of the first NUL. -/
def cstr (buf : List Nat) : List Nat := buf.takeWhile (fun c => c != 0)

/-- `isspace` in the C locale: blank, TAB, LF, VT, FF, CR. -/
def isspace (c : Nat) : Bool := c == 32 || (9 ≤ c && c ≤ 13)

/-- `isdigit`. -/
def isdigit (c : Nat) : Bool := 48 ≤ c && c ≤ 57

/-- Value of a string of decimal digits. -/
def digitsVal (ds : List Nat) : Nat := ds.foldl (fun acc d => 10 * acc + (d - 48)) 0

/-- What `%d` stores for the mathematical value `v`: the C library converts
with `strtol`, which saturates at the ends of `long` (64 bits), and the result is
cast to `int`. -/
def to_int (v : Int) : Int :=
  wrap32 (max (-9223372036854775808) (min 9223372036854775807 v))

/-- An ordinary-character directive of a `scanf` format: the input has to
start with exactly these bytes. -/
def scan_lit : List Nat → List Nat → Option (List Nat)
  | [], s => some s
  | _ :: _, [] => none
  | c :: cs, x :: xs => if c = x then scan_lit cs xs else none

/-- The optional sign in front of the digits of `%d`. -/
def scan_sign : List Nat → Bool × List Nat
  | [] => (false, [])
  | c :: t => if c = 45 then (true, t) else if c = 43 then (false, t) else (false, c :: t)

/-- The conversion `%d` of `scanf`: white space is skipped, then an optional
sign and a non-empty run of digits are taken.  Returns the value stored and the
input that is left, or `none` on a matching failure. -/
def scan_d (s : List Nat) : Option (Int × List Nat) :=
  let sg := scan_sign (s.dropWhile isspace)
  let ds := sg.2.takeWhile isdigit
  if ds.isEmpty then none
  else some (to_int (if sg.1 then -(digitsVal ds : Int) else (digitsVal ds : Int)),
    sg.2.dropWhile isdigit)

/-- The bytes of `HTTP/1.`. -/
def HTTP_1_dot : List Nat := [72, 84, 84, 80, 47, 49, 46]

/-- `sscanf (buf, "HTTP/1.%*d %d", &n)`: `some n` when the call returns 1 and
stores `n`, `none` when it returns anything else.  The blank of the format
skips any amount of white space. -/
def sscanf_status (s : List Nat) : Option Int :=
  match scan_lit HTTP_1_dot s with
  | none => none
  | some s1 =>
    match scan_d s1 with
    | none => none
    | some (_, s2) =>
      match scan_d (s2.dropWhile isspace) with
      | none => none
      | some (n, _) => some n

/-- The test of line 251, `sscanf (...) != 1 || n/100 != 2`, on the buffer
that the scan has filled and closed with a NUL. -/
def bad_response (buf : List Nat) : Bool :=
  match sscanf_status (cstr buf) with
  | none => true
  | some n => Int.tdiv n 100 != 2

/-- Lines 252-253: the buffer is cut at its first CR, or without a CR at its
first LF, before it is logged. -/
def first_line (buf : List Nat) : List Nat :=
  let s := cstr buf
  if s.contains 13 then s.takeWhile (fun c => c != 13) else s.takeWhile (fun c => c != 10)

/-! ## The CONNECT request -/

/-- Decimal rendering as `%d` prints a non-negative number. -/
def dec (n : Nat) : List Nat := (Nat.toDigits 10 n).map Char.toNat

/-- `inet_ntoa`: the dotted quad of the address `a.b.c.d`, held as the number
`a * 2^24 + b * 2^16 + c * 2^8 + d`. -/
def inet_ntoa (a : Nat) : List Nat :=
  dec (a / 16777216 % 256) ++ [46] ++ dec (a / 65536 % 256) ++ [46] ++
    dec (a / 256 % 256) ++ [46] ++ dec (a % 256)

/-- The request `snprintf` builds: `CONNECT <ip>:<port> HTTP/1.0\r\n\r\n`. -/
def connect_request (dst : sockaddr_in) : List Nat :=
  [67, 79, 78, 78, 69, 67, 84, 32] ++ inet_ntoa dst.sin_addr ++ [58] ++ dec dst.sin_port ++
    [32, 72, 84, 84, 80, 47, 49, 46, 48, 13, 10, 13, 10]

/-! ## The relay -/

/-- How a pump leaves its loop. -/
inductive PumpExit where
  | eof
  | read_error
  | write_error
  | out_of_steps
deriving DecidableEq, Repr

/-- Result of the inner loop of a pump. -/
structure DrainResult where
  failed : Bool
  rest : List WriteEv
  trace : List Event
deriving DecidableEq, Repr

/-- The inner loop of both pumps,
`while (n > 0) { if ((m = iwrite (fd, ptr, n, msg)) < 0) goto done; n -= m; ptr += m; }`.
`ptr` is the part of the buffer from `ptr` on; the first argument bounds the
number of iterations. -/
def drain (fd : Int) (ctx : Ctx) : Nat → Int → List Nat → List WriteEv → DrainResult
  | 0, _, _, out => ⟨true, out, []⟩
  | fuel + 1, n, ptr, out =>
    if n > 0 then
      let w := iwrite out
      let ev := Event.iwrite fd (ptr.take n.toNat) w.n :: io_warning w.n ctx
      if w.n < 0 then ⟨true, w.rest, ev⟩
      else
        let d := drain fd ctx fuel (n - w.n) (ptr.drop w.n.toNat) w.rest
        ⟨d.failed, d.rest, ev ++ d.trace⟩
    else ⟨false, out, []⟩

/-- Result of a pump: how it left, its byte counter, the two descriptors
afterwards and the actions performed. -/
structure PumpResult where
  exit : PumpExit
  count : Int
  rest_in : List ReadEv
  rest_out : List WriteEv
  trace : List Event
deriving DecidableEq, Repr

/-- The reader pump of `accepter` (lines 262-279), from `local` to `remote`.
The first argument bounds the number of iterations, `sent` is `proxy->sent`. -/
def reader_loop (p : proxy) : Nat → Int → List ReadEv → List WriteEv → PumpResult
  | 0, sent, lin, rout => ⟨PumpExit.out_of_steps, sent, lin, rout, []⟩
  | fuel + 1, sent, lin, rout =>
    let r := iread 8192 lin
    let ev := Event.iread p.local_ 8192 r.n r.bytes :: io_warning r.n Ctx.local_read
    if r.n < 0 then ⟨PumpExit.read_error, sent, r.rest, rout, ev⟩
    else if r.n = 0 then
      ⟨PumpExit.eof, sent, r.rest, rout, ev ++ [Event.shutdown_wr p.remote]⟩
    else
      let sent1 := wrap32 (sent + r.n)
      let d := drain p.remote Ctx.remote_write (rout.length + 1) r.n r.bytes rout
      if d.failed then ⟨PumpExit.write_error, sent1, r.rest, d.rest, ev ++ d.trace⟩
      else
        let k := reader_loop p fuel sent1 r.rest d.rest
        ⟨k.exit, k.count, k.rest_in, k.rest_out, ev ++ d.trace ++ k.trace⟩

/-- The loop of `writer` (lines 301-312), from `remote` to `local`.  The first
argument bounds the number of iterations, `recv` is `proxy->recv`. -/
def writer_loop (p : proxy) : Nat → Int → List ReadEv → List WriteEv → PumpResult
  | 0, recv, rin, lout => ⟨PumpExit.out_of_steps, recv, rin, lout, []⟩
  | fuel + 1, recv, rin, lout =>
    let r := iread 8192 rin
    let ev := Event.iread p.remote 8192 r.n r.bytes :: io_warning r.n Ctx.remote_read
    if r.n > 0 then
      let recv1 := wrap32 (recv + r.n)
      let d := drain p.local_ Ctx.local_write (lout.length + 1) r.n r.bytes lout
      if d.failed then ⟨PumpExit.write_error, recv1, r.rest, d.rest, ev ++ d.trace⟩
      else
        let k := writer_loop p fuel recv1 r.rest d.rest
        ⟨k.exit, k.count, k.rest_in, k.rest_out, ev ++ d.trace ++ k.trace⟩
    else
      ⟨if r.n < 0 then PumpExit.read_error else PumpExit.eof, recv, r.rest, lout, ev⟩

/-- The thread body `writer`: the loop, then `shutdown (proxy->local, SHUT_WR)`
and `pthread_exit`. -/
def writer (p : proxy) (rin : List ReadEv) (lout : List WriteEv) : PumpResult :=
  let k := writer_loop p (sockSize rin + 1) p.recv rin lout
  ⟨k.exit, k.count, k.rest_in, k.rest_out,
    k.trace ++ [Event.shutdown_wr p.local_, Event.pthread_exit]⟩

/-- The bytes a trace puts on descriptor `fd`: of every `iwrite` on `fd` that
returned `m >= 0`, the first `m` bytes of its buffer. -/
def wire (fd : Int) : List Event → List Nat
  | [] => []
  | Event.iwrite fd1 buf m :: t =>
      (if fd1 = fd ∧ 0 ≤ m then buf.take m.toNat else []) ++ wire fd t
  | _ :: t => wire fd t

/-! ## The flow handler -/

/-- The figure the termination record prints for a byte counter:
`(x + 1023) / 1024` in `int` arithmetic. -/
def kB (x : Int) : Int := Int.tdiv (wrap32 (x + 1023)) 1024

/-- Result of a piece of the handler: actions, the guarded counters, the flow
record. -/
structure Outcome where
  trace : List Event
  globals : Globals
  flow : proxy
deriving DecidableEq, Repr

/-- The block at the label `done` of `accepter` (lines 282-292). -/
def at_done (p : proxy) (g : Globals) : Outcome :=
  { trace :=
      [Event.mutex_lock,
       Event.logger Pri.LOG_INFO (Msg.disconnect p.serial (kB p.sent) (kB p.recv)),
       Event.mutex_unlock] ++
      (if p.local_ ≥ 0 then [Event.close p.local_] else []) ++
      (if p.remote ≥ 0 then [Event.close p.remote] else []) ++
      [Event.free, Event.pthread_exit],
    globals := { g with connections := wrap32 (g.connections - 1) },
    flow := p }

/-- What the surroundings of one run of `accepter` supply: the answer of
`getsockopt (SO_ORIGINAL_DST)` (`none` for a negative return), the return values
of `socket`, `connect` and of the `write` of the request, what the upstream and
the client deliver, what the writes to the upstream return, and the value of
`proxy->recv`, which the writer thread maintains, as the handler finds it at
`done`. -/
structure Env where
  orig_dst : Option sockaddr_in
  socket_ret : Int
  connect_ret : Int
  request_ret : Int
  remote_in : List ReadEv
  local_in : List ReadEv
  remote_out : List WriteEv
  recv_seen : Int

/-- Put a piece of trace in front of an outcome. -/
def Outcome.after (ev : List Event) (o : Outcome) : Outcome :=
  { o with trace := ev ++ o.trace }

/-- Lines 259-281 of `accepter`: the writer is created, the reader pump runs,
and the writer is joined when the pump left through `break`. -/
def relay (env : Env) (p : proxy) (g : Globals) : Outcome :=
  let k := reader_loop p (sockSize env.local_in + 1) p.sent env.local_in env.remote_out
  let p1 := { p with sent := k.count, recv := env.recv_seen }
  match k.exit with
  | PumpExit.eof =>
      (at_done p1 g).after (Event.pthread_create Thread.writer :: k.trace ++ [Event.pthread_join])
  | _ => (at_done p1 g).after (Event.pthread_create Thread.writer :: k.trace)

/-- Lines 239-257 of `accepter`: the header scan and the status check, then
the relay. -/
def handshake (env : Env) (dst : sockaddr_in) (p : proxy) (g : Globals) : Outcome :=
  let s := scan_header p.remote env.remote_in
  if !s.stopped then (at_done p g).after s.trace
  else if bad_response s.buf then
    (at_done p g).after
      (s.trace ++ [Event.logger Pri.LOG_ERR (Msg.bad_proxy_response dst (first_line s.buf))])
  else (relay env p g).after s.trace

/-- Lines 231-238 of `accepter`: `socket`, `connect` and the `write` of the
request, chained with `||`. -/
def open_upstream (env : Env) (dst : sockaddr_in) (p : proxy) (g : Globals) : Outcome :=
  let p1 := { p with remote := env.socket_ret }
  let fail := [Event.logger Pri.LOG_ERR Msg.proxy_connect]
  if env.socket_ret < 0 then
    (at_done p1 g).after (Event.socket env.socket_ret :: fail)
  else if env.connect_ret < 0 then
    (at_done p1 g).after
      ([Event.socket env.socket_ret, Event.connect p1.remote env.connect_ret] ++ fail)
  else if env.request_ret ≠ (connect_request dst).length then
    (at_done p1 g).after
      ([Event.socket env.socket_ret, Event.connect p1.remote env.connect_ret,
        Event.write p1.remote (connect_request dst) env.request_ret] ++ fail)
  else
    (handshake env dst p1 g).after
      [Event.socket env.socket_ret, Event.connect p1.remote env.connect_ret,
       Event.write p1.remote (connect_request dst) env.request_ret]

/-- The thread body `accepter`. -/
def accepter (env : Env) (p : proxy) (g : Globals) : Outcome :=
  match env.orig_dst with
  | none =>
      (at_done p g).after
        [Event.getsockopt p.local_, Event.logger Pri.LOG_ERR Msg.cannot_get_original]
  | some dst =>
    if dst.sin_addr = p.sin.sin_addr then
      (at_done p g).after
        [Event.getsockopt p.local_, Event.logger Pri.LOG_INFO (Msg.connect p.serial dst),
         Event.logger Pri.LOG_CRIT Msg.loop_detected]
    else
      (open_upstream env dst p g).after
        [Event.getsockopt p.local_, Event.logger Pri.LOG_INFO (Msg.connect p.serial dst)]

/-! ## The listener -/

/-- Result of the critical section of the listener loop. -/
structure Admission where
  globals : Globals
  flow : Option proxy
  trace : List Event
deriving DecidableEq, Repr

/-- Lines 192-205 of `main`: what the loop does with the descriptor `r` that
`accept` has returned.  `max_connections` and `proxy` are the configuration. -/
def main_accept (max_connections : Int) (upstream : sockaddr_in) (r : Int) (g : Globals) :
    Admission :=
  if g.connections ≥ max_connections then
    { globals := g, flow := none,
      trace := [Event.mutex_lock,
        Event.logger Pri.LOG_ERR (Msg.too_many_connections max_connections),
        Event.close r, Event.mutex_unlock] }
  else
    { globals := { connections := wrap32 (g.connections + 1),
                   conn_serial := wrap32 (g.conn_serial + 1) },
      flow := some { sin := upstream, local_ := r, remote := -1, serial := g.conn_serial,
                     sent := 0, recv := 0 },
      trace := [Event.mutex_lock, Event.pthread_create Thread.accepter, Event.mutex_unlock] }

/-- The process as the mutex sees it: the guarded counters, the flows that have
been admitted and have not yet passed `done`, and the serials handed out so far,
in accept order. -/
structure Sys where
  globals : Globals
  live : List proxy
  serials : List Int
deriving DecidableEq, Repr

/-- What can happen next: `accept` returns a descriptor, or the handler of the
`i`-th live flow runs (in surroundings `env`) and passes `done`. -/
inductive Step where
  | accept (r : Int)
  | finish (i : Nat) (env : Env)

/-- State at the start of the listener loop. -/
def Sys.init : Sys := { globals := ⟨0, 0⟩, live := [], serials := [] }

/-- One step of the process; `none` when the step names a flow that is not
live. -/
def sys_step (max_connections : Int) (upstream : sockaddr_in) (s : Sys) : Step → Option Sys
  | Step.accept r =>
    let a := main_accept max_connections upstream r s.globals
    some { globals := a.globals,
           live := s.live ++ a.flow.toList,
           serials := s.serials ++ (a.flow.map (fun f => f.serial)).toList }
  | Step.finish i env =>
    match s.live[i]? with
    | none => none
    | some p =>
      some { globals := (accepter env p s.globals).globals,
             live := s.live.eraseIdx i,
             serials := s.serials }

/-- A sequence of steps. -/
def sys_run (max_connections : Int) (upstream : sockaddr_in) : Sys → List Step → Option Sys
  | s, [] => some s
  | s, e :: es =>
    match sys_step max_connections upstream s e with
    | none => none
    | some s1 => sys_run max_connections upstream s1 es

/-! ## Reading traces -/

/-- Actions a read or write helper can perform: the call itself and the
warning it logs. -/
def Event.isTransfer : Event → Bool
  | Event.iread _ _ _ _ => true
  | Event.iwrite _ _ _ => true
  | Event.logger Pri.LOG_WARNING (Msg.io_failure _) => true
  | Event.shutdown_wr _ => true
  | _ => false

/-- Actions that open the upstream connection or put bytes on a descriptor. -/
def Event.isUpstreamUse : Event → Bool
  | Event.socket _ => true
  | Event.connect _ _ => true
  | Event.write _ _ _ => true
  | Event.iwrite _ _ _ => true
  | _ => false

/-- The termination record. -/
def Event.isDisconnect : Event → Bool
  | Event.logger Pri.LOG_INFO (Msg.disconnect _ _ _) => true
  | _ => false

/-! ## Sample flows -/

/-- The record of the first flow admitted: client on descriptor 5, upstream
proxy 192.168.0.1:8080, serial 0. -/
def flow0 : proxy := ⟨⟨3232235521, 8080⟩, 5, -1, 0, 0, 0⟩

/-- An upstream that answers `HTTP/1.0 200 OK\r\n\r\n` in one segment. -/
def ok_response : List ReadEv :=
  [ReadEv.data 72 [84, 84, 80, 47, 49, 46, 48, 32, 50, 48, 48, 32, 79, 75, 13, 10, 13, 10]]

/-- Destination 10.0.0.1:443; the upstream accepts the tunnel; the client
sends `PING` and then its connection fails (`read` on the local socket returns
an error). -/
def env_local_read_error : Env :=
  ⟨some ⟨167772161, 443⟩, 7, 0, 33, ok_response,
    [ReadEv.data 80 [73, 78, 71], ReadEv.error], [WriteEv.ret 4], 0⟩

/-- Destination 10.0.0.1:443; the upstream accepts the tunnel; the client
sends `PING` and the `write` to the upstream fails. -/
def env_remote_write_error : Env :=
  ⟨some ⟨167772161, 443⟩, 7, 0, 33, ok_response,
    [ReadEv.data 80 [73, 78, 71]], [WriteEv.error], 0⟩

/-- Destination 10.0.0.1:443; the upstream accepts the tunnel; the client
sends `PING`, taken by the upstream in two writes, and closes. -/
def env_local_eof : Env :=
  ⟨some ⟨167772161, 443⟩, 7, 0, 33, ok_response,
    [ReadEv.data 80 [73, 78, 71]], [WriteEv.ret 3, WriteEv.eintr, WriteEv.ret 1], 9⟩

/-- Surroundings in which `getsockopt` fails: the handler goes straight to
`done`. -/
def env_no_destination : Env := ⟨none, 0, 0, 0, [], [], [], 0⟩

/-- A long day at the listener with `max_connections = 1`: 2147483649
connections one after the other, each admitted and brought to `done` before
the next one arrives. -/
def many_flows : List Step :=
  (List.replicate 2147483649 [Step.accept 5, Step.finish 0 env_no_destination]).flatten

/-! ## The terminator scanner of the specification -/

/-- One step of the counter `n` of the specification's terminator scanner: on
LF `n += 1`, on CR `n` unchanged, on any other byte `n = 0`. -/
def spec_step (n : Nat) (c : Nat) : Nat :=
  if c = 10 then n + 1 else if c = 13 then n else 0

/-- Cut a byte stream behind the first byte at which the counter, started at
`n`, has reached 2: the bytes up to there and the bytes that follow. -/
def find_terminator : Nat → List Nat → Option (List Nat × List Nat)
  | n, [] => if 2 ≤ n then some ([], []) else none
  | n, c :: cs =>
    if 2 ≤ n then some ([], c :: cs)
    else (find_terminator (spec_step n c) cs).map (fun ab => (c :: ab.1, ab.2))

/-- The bytes that the `iread` calls of a trace have returned, in order. -/
def read_bytes : List Event → List Nat
  | [] => []
  | Event.iread _ _ _ bytes :: t => bytes ++ read_bytes t
  | _ :: t => read_bytes t

/-- An upstream that sends 8192 bytes `A` and then the blank line, in one
segment: a header block of 8194 bytes. -/
def overlong_header : List ReadEv :=
  [ReadEv.data 65 (List.replicate 8191 65 ++ [10, 10])]

/-! ## The status line: the reading of the specification and the pattern of `sscanf` -/

theorem wrap32_of_range (x : Int) (h0 : -2147483648 ≤ x) (h1 : x ≤ 2147483647) :
    wrap32 x = x := by
  unfold wrap32
  omega

/-! ## The termination record -/

/-- C9: the termination record carries `kB sent` and `kB recv`, and for a byte
total `n` with `0 <= n <= 2^31 - 1024` the figure `kB n`, computed as
`(n + 1023) / 1024` in 32-bit arithmetic, is the ceiling of `n / 1024`: the least
`k` with `1024 * k >= n`; it is 0 for 0, 1 for 4 and for 9, 1024 for 1048576. -/
theorem kB_rounds_up (p : proxy) (g : Globals) (n : Int) (h0 : 0 ≤ n)
    (h1 : n ≤ 2 ^ 31 - 1024) :
    Event.logger Pri.LOG_INFO (Msg.disconnect p.serial (kB p.sent) (kB p.recv))
        ∈ (at_done p g).trace ∧
      kB n = (n + 1023) / 1024 ∧
      kB n = ⌈(n : ℚ) / 1024⌉ ∧
      n ≤ 1024 * kB n ∧ (∀ k : Int, n ≤ 1024 * k → kB n ≤ k) ∧
      kB 0 = 0 ∧ kB 4 = 1 ∧ kB 9 = 1 ∧ kB 1048576 = 1024 := by
  have hw : wrap32 (n + 1023) = n + 1023 := wrap32_of_range _ (by omega) (by omega)
  have hk : kB n = (n + 1023) / 1024 := by
    unfold kB
    rw [hw, Int.tdiv_eq_ediv (by omega) (by omega)]
  refine ⟨by simp [at_done], hk, ?_, ?_, ?_, by decide, by decide, by decide, by decide⟩
  · rw [hk]
    apply le_antisymm
    · rw [Int.le_ceil_iff]
      have h2 : ((n + 1023) / 1024 - 1) * 1024 < n := by omega
      have h3 : (((((n + 1023) / 1024 - 1) * 1024 : Int)) : ℚ) < (n : ℚ) := by exact_mod_cast h2
      push_cast at h3 ⊢
      rw [lt_div_iff₀ (by norm_num)]
      linarith
    · rw [Int.ceil_le]
      have h2 : n ≤ ((n + 1023) / 1024) * 1024 := by omega
      have h3 : (n : ℚ) ≤ ((((n + 1023) / 1024) * 1024 : Int) : ℚ) := by exact_mod_cast h2
      push_cast at h3 ⊢
      rw [div_le_iff₀ (by norm_num)]
      linarith
  · rw [hk]; omega
  · intro k hk2
    rw [hk]; omega

/-- Use of `kB_rounds_up` at a flow that sent 4 bytes and received 9. -/
theorem kB_rounds_up_witness :
    (0 : Int) ≤ 4 ∧ (4 : Int) ≤ 2 ^ 31 - 1024 ∧ kB 4 = ⌈((4 : Int) : ℚ) / 1024⌉ :=
  ⟨by decide, by decide,
    (kB_rounds_up ⟨⟨3232235521, 8080⟩, 5, 6, 0, 4, 9⟩ ⟨1, 1⟩ 4 (by decide) (by decide)).2.2.1⟩

/-! ## What the loops put in the trace -/

theorem io_warning_transfer (n : Int) (ctx : Ctx) :
    ∀ e ∈ io_warning n ctx, e.isTransfer = true := by
  intro e he
  unfold io_warning at he
  split at he
  · simp at he; subst he; rfl
  · simp at he

theorem scan_loop_transfer (fd : Int) (fuel : Nat) :
    ∀ (n : Int) (buf : List Nat) (sock : List ReadEv),
      ∀ e ∈ (scan_loop fd fuel n buf sock).trace, e.isTransfer = true := by
  induction fuel with
  | zero => intro n buf sock e he; simp [scan_loop] at he
  | succ fuel ih =>
    intro n buf sock e he
    unfold scan_loop at he
    split at he
    · simp only at he
      split at he
      · simp only [List.mem_cons] at he
        rcases he with h | h
        · subst h; rfl
        · exact io_warning_transfer _ _ e h
      · simp only [List.mem_append, List.mem_cons, List.cons_append] at he
        rcases he with h | h | h
        · subst h; rfl
        · exact io_warning_transfer _ _ e h
        · exact ih _ _ _ e h
    · simp at he

theorem drain_transfer (fd : Int) (ctx : Ctx) (fuel : Nat) :
    ∀ (n : Int) (ptr : List Nat) (out : List WriteEv),
      ∀ e ∈ (drain fd ctx fuel n ptr out).trace, e.isTransfer = true := by
  induction fuel with
  | zero => intro n ptr out e he; simp [drain] at he
  | succ fuel ih =>
    intro n ptr out e he
    unfold drain at he
    split at he
    · simp only at he
      split at he
      · simp only [List.mem_cons] at he
        rcases he with h | h
        · subst h; rfl
        · exact io_warning_transfer _ _ e h
      · simp only [List.mem_append, List.mem_cons, List.cons_append] at he
        rcases he with h | h | h
        · subst h; rfl
        · exact io_warning_transfer _ _ e h
        · exact ih _ _ _ e h
    · simp at he

theorem reader_loop_transfer (p : proxy) (fuel : Nat) :
    ∀ (sent : Int) (lin : List ReadEv) (rout : List WriteEv),
      ∀ e ∈ (reader_loop p fuel sent lin rout).trace, e.isTransfer = true := by
  induction fuel with
  | zero => intro sent lin rout e he; simp [reader_loop] at he
  | succ fuel ih =>
    intro sent lin rout e he
    unfold reader_loop at he
    simp only at he
    split at he
    · simp only [List.mem_cons] at he
      rcases he with h | h
      · subst h; rfl
      · exact io_warning_transfer _ _ e h
    · split at he
      · simp only [List.mem_append, List.mem_cons, List.cons_append, List.mem_singleton,
          List.not_mem_nil, or_false] at he
        rcases he with h | h | h
        · subst h; rfl
        · exact io_warning_transfer _ _ e h
        · subst h; rfl
      · split at he
        · simp only [List.mem_append, List.mem_cons, List.cons_append] at he
          rcases he with h | h | h
          · subst h; rfl
          · exact io_warning_transfer _ _ e h
          · exact drain_transfer _ _ _ _ _ _ e h
        · simp only [List.mem_append, List.mem_cons, List.cons_append] at he
          rcases he with h | (h | h) | h
          · subst h; rfl
          · exact io_warning_transfer _ _ e h
          · exact drain_transfer _ _ _ _ _ _ e h
          · exact ih _ _ _ e h

/-! ## The loop check -/

theorem at_done_no_loop (p : proxy) (g : Globals) :
    Event.logger Pri.LOG_CRIT Msg.loop_detected ∉ (at_done p g).trace := by
  unfold at_done
  simp only [List.mem_append, List.mem_cons, not_or]
  split <;> split <;> simp

theorem transfer_no_loop (t : List Event) (h : ∀ e ∈ t, e.isTransfer = true) :
    Event.logger Pri.LOG_CRIT Msg.loop_detected ∉ t := by
  intro hm
  have := h _ hm
  simp [Event.isTransfer] at this

theorem relay_no_loop (env : Env) (p : proxy) (g : Globals) :
    Event.logger Pri.LOG_CRIT Msg.loop_detected ∉ (relay env p g).trace := by
  have hr := transfer_no_loop _ (reader_loop_transfer p (sockSize env.local_in + 1) p.sent
    env.local_in env.remote_out)
  unfold relay
  simp only
  split
  · simp only [Outcome.after, List.cons_append, List.mem_cons, List.mem_append, not_or]
    exact ⟨by simp, ⟨hr, by simp⟩, at_done_no_loop _ _⟩
  · simp only [Outcome.after, List.cons_append, List.mem_cons, List.mem_append, not_or]
    exact ⟨by simp, hr, at_done_no_loop _ _⟩

theorem handshake_no_loop (env : Env) (dst : sockaddr_in) (p : proxy) (g : Globals) :
    Event.logger Pri.LOG_CRIT Msg.loop_detected ∉ (handshake env dst p g).trace := by
  have hs := transfer_no_loop _ (scan_loop_transfer p.remote (sockSize env.remote_in + 1) 0 []
    env.remote_in)
  unfold handshake
  simp only
  split
  · simp only [Outcome.after, List.mem_append, not_or]
    exact ⟨hs, at_done_no_loop _ _⟩
  · split
    · simp only [Outcome.after, List.mem_append, not_or]
      exact ⟨⟨hs, by simp⟩, at_done_no_loop _ _⟩
    · simp only [Outcome.after, List.mem_append, not_or]
      exact ⟨hs, relay_no_loop _ _ _⟩

theorem open_upstream_no_loop (env : Env) (dst : sockaddr_in) (p : proxy) (g : Globals) :
    Event.logger Pri.LOG_CRIT Msg.loop_detected ∉ (open_upstream env dst p g).trace := by
  unfold open_upstream
  simp only
  split
  · simp [Outcome.after, at_done_no_loop]
  · split
    · simp [Outcome.after, at_done_no_loop]
    · split
      · simp [Outcome.after, at_done_no_loop]
      · simp [Outcome.after, handshake_no_loop]

/-- C10: the loop check looks at the IPv4 addresses only.  For every recovered
destination and every configured upstream endpoint, whatever their ports, the
handler logs the CRIT loop record and goes to `done` exactly when the two
addresses are equal; with different addresses it goes on to open the upstream. -/
theorem loop_check_compares_addresses_only (env : Env) (p : proxy) (g : Globals)
    (dst : sockaddr_in) (hdst : env.orig_dst = some dst) :
    (Event.logger Pri.LOG_CRIT Msg.loop_detected ∈ (accepter env p g).trace ↔
        dst.sin_addr = p.sin.sin_addr) ∧
      (dst.sin_addr = p.sin.sin_addr →
        accepter env p g = (at_done p g).after
          [Event.getsockopt p.local_, Event.logger Pri.LOG_INFO (Msg.connect p.serial dst),
           Event.logger Pri.LOG_CRIT Msg.loop_detected]) ∧
      (dst.sin_addr ≠ p.sin.sin_addr →
        accepter env p g = (open_upstream env dst p g).after
          [Event.getsockopt p.local_, Event.logger Pri.LOG_INFO (Msg.connect p.serial dst)]) := by
  refine ⟨?_, ?_, ?_⟩
  · constructor
    · intro hm
      by_contra hne
      have hacc : accepter env p g = (open_upstream env dst p g).after
          [Event.getsockopt p.local_, Event.logger Pri.LOG_INFO (Msg.connect p.serial dst)] := by
        simp [accepter, hdst, hne]
      rw [hacc] at hm
      simp only [Outcome.after, List.cons_append, List.nil_append, List.mem_cons] at hm
      rcases hm with h | h | h
      · simp at h
      · simp at h
      · exact open_upstream_no_loop _ _ _ _ h
    · intro heq
      simp [accepter, hdst, heq, Outcome.after]
  · intro heq
    simp [accepter, hdst, heq]
  · intro hne
    simp [accepter, hdst, hne]

/-- Use of `loop_check_compares_addresses_only`: a destination on the upstream
host 192.168.0.1 with port 443, the upstream listening on port 8080. -/
theorem loop_check_compares_addresses_only_witness :
    Event.logger Pri.LOG_CRIT Msg.loop_detected ∈
      (accepter ⟨some ⟨3232235521, 443⟩, 6, 0, 0, [], [], [], 0⟩
        ⟨⟨3232235521, 8080⟩, 5, -1, 0, 0, 0⟩ ⟨1, 1⟩).trace :=
  (loop_check_compares_addresses_only ⟨some ⟨3232235521, 443⟩, 6, 0, 0, [], [], [], 0⟩
    ⟨⟨3232235521, 8080⟩, 5, -1, 0, 0, 0⟩ ⟨1, 1⟩ ⟨3232235521, 443⟩ rfl).1.2 rfl

/-- C7: a flow whose recovered destination has the address of the upstream is
refused as a loop.  The handler logs the CRIT loop record, performs no `socket`,
no `connect` and no write at all, logs exactly one termination record,
decrements `connections` once, and leaves `conn_serial` and the serial of the
flow as they are. -/
theorem loop_flow_refused (env : Env) (p : proxy) (g : Globals) (dst : sockaddr_in)
    (hdst : env.orig_dst = some dst) (hloop : dst.sin_addr = p.sin.sin_addr)
    (hlive : 0 < g.connections) (hint : g.connections ≤ INT_MAX) :
    Event.logger Pri.LOG_CRIT Msg.loop_detected ∈ (accepter env p g).trace ∧
      (∀ e ∈ (accepter env p g).trace, e.isUpstreamUse = false) ∧
      (accepter env p g).trace.countP Event.isDisconnect = 1 ∧
      Event.logger Pri.LOG_INFO (Msg.disconnect p.serial (kB p.sent) (kB p.recv))
        ∈ (accepter env p g).trace ∧
      (accepter env p g).globals.connections = g.connections - 1 ∧
      (accepter env p g).globals.conn_serial = g.conn_serial ∧
      (accepter env p g).flow.serial = p.serial := by
  have hacc : accepter env p g = (at_done p g).after
      [Event.getsockopt p.local_, Event.logger Pri.LOG_INFO (Msg.connect p.serial dst),
       Event.logger Pri.LOG_CRIT Msg.loop_detected] := by
    simp [accepter, hdst, hloop]
  rw [hacc]
  unfold INT_MAX at hint
  refine ⟨by simp [Outcome.after], ?_, ?_, by simp [Outcome.after, at_done], ?_, rfl, rfl⟩
  · intro e he
    simp only [Outcome.after, at_done, List.cons_append, List.nil_append, List.mem_cons,
      List.mem_append] at he
    rcases he with h | h | h | h | h | h | (h | h) | h | h | h
    all_goals first
      | (subst h; rfl)
      | (split at h <;> simp at h <;> subst h <;> rfl)
      | (simp at h)
  · simp only [Outcome.after, at_done]
    split <;> split <;> simp [Event.isDisconnect, List.countP_cons]
  · simp only [Outcome.after, at_done]
    exact wrap32_of_range _ (by omega) (by omega)

/-- Use of `loop_flow_refused`: the first flow, redirected to port 443 of
the upstream host itself. -/
theorem loop_flow_refused_witness :
    (accepter ⟨some ⟨3232235521, 443⟩, 6, 0, 0, [], [], [], 0⟩ flow0 ⟨1, 1⟩).globals.connections
      = 1 - 1 :=
  (loop_flow_refused ⟨some ⟨3232235521, 443⟩, 6, 0, 0, [], [], [], 0⟩ flow0 ⟨1, 1⟩
    ⟨3232235521, 443⟩ rfl rfl (by decide) (by decide)).2.2.2.2.1

/-! ## Joining the writer -/

theorem at_done_no_join (p : proxy) (g : Globals) :
    Event.pthread_join ∉ (at_done p g).trace := by
  unfold at_done
  simp only [List.mem_append, List.mem_cons, not_or]
  split <;> split <;> simp

theorem at_done_frees (p : proxy) (g : Globals) : Event.free ∈ (at_done p g).trace := by
  unfold at_done
  simp

/-- C4, at the two failing inputs: when the reader pump is left through a
read error on the local socket, or through a write error on the upstream, the
handler has created the writer and closes both sockets and frees the flow
record without a `pthread_join`; only the end of the local stream leads to the
join.  In general, whenever the pump is left otherwise than through the end of
the local stream, the trace of the relay has the creation of the writer and the
`free`, and no join. -/
theorem pump_error_skips_join :
    (Event.pthread_create Thread.writer ∈ (accepter env_local_read_error flow0 ⟨1, 1⟩).trace ∧
      Event.pthread_join ∉ (accepter env_local_read_error flow0 ⟨1, 1⟩).trace ∧
      Event.close 5 ∈ (accepter env_local_read_error flow0 ⟨1, 1⟩).trace ∧
      Event.close 7 ∈ (accepter env_local_read_error flow0 ⟨1, 1⟩).trace ∧
      Event.free ∈ (accepter env_local_read_error flow0 ⟨1, 1⟩).trace) ∧
    (Event.pthread_create Thread.writer ∈ (accepter env_remote_write_error flow0 ⟨1, 1⟩).trace ∧
      Event.pthread_join ∉ (accepter env_remote_write_error flow0 ⟨1, 1⟩).trace ∧
      Event.close 5 ∈ (accepter env_remote_write_error flow0 ⟨1, 1⟩).trace ∧
      Event.close 7 ∈ (accepter env_remote_write_error flow0 ⟨1, 1⟩).trace ∧
      Event.free ∈ (accepter env_remote_write_error flow0 ⟨1, 1⟩).trace) ∧
    (accepter env_local_eof flow0 ⟨1, 1⟩).trace.drop 29 =
      [Event.shutdown_wr 7, Event.pthread_join, Event.mutex_lock,
       Event.logger Pri.LOG_INFO (Msg.disconnect 0 1 1), Event.mutex_unlock,
       Event.close 5, Event.close 7, Event.free, Event.pthread_exit] ∧
    (∀ (env : Env) (p : proxy) (g : Globals),
      (reader_loop p (sockSize env.local_in + 1) p.sent env.local_in env.remote_out).exit
          ≠ PumpExit.eof →
      Event.pthread_create Thread.writer ∈ (relay env p g).trace ∧
        Event.pthread_join ∉ (relay env p g).trace ∧
        Event.free ∈ (relay env p g).trace) := by
  refine ⟨by decide, by decide, by decide, ?_⟩
  intro env p g hexit
  have hk : Event.pthread_join ∉
      (reader_loop p (sockSize env.local_in + 1) p.sent env.local_in env.remote_out).trace := by
    intro hm
    have := reader_loop_transfer p _ _ _ _ _ hm
    simp [Event.isTransfer] at this
  have hrelay : relay env p g =
      (at_done { p with
          sent := (reader_loop p (sockSize env.local_in + 1) p.sent env.local_in
            env.remote_out).count,
          recv := env.recv_seen } g).after
        (Event.pthread_create Thread.writer ::
          (reader_loop p (sockSize env.local_in + 1) p.sent env.local_in
            env.remote_out).trace) := by
    unfold relay
    simp only
  rw [hrelay]
  simp only [Outcome.after, List.cons_append, List.mem_cons, List.mem_append, true_or,
    not_or, true_and]
  exact ⟨⟨by simp, hk, at_done_no_join _ _⟩, Or.inr (Or.inr (at_done_frees _ _))⟩

/-! ## What the handler does to the guarded counters -/

theorem relay_globals (env : Env) (p : proxy) (g : Globals) :
    (relay env p g).globals = { g with connections := wrap32 (g.connections - 1) } ∧
      (relay env p g).flow.serial = p.serial := by
  unfold relay
  simp only
  split <;> exact ⟨rfl, rfl⟩

theorem handshake_globals (env : Env) (dst : sockaddr_in) (p : proxy) (g : Globals) :
    (handshake env dst p g).globals = { g with connections := wrap32 (g.connections - 1) } ∧
      (handshake env dst p g).flow.serial = p.serial := by
  unfold handshake
  simp only
  split
  · exact ⟨rfl, rfl⟩
  · split
    · exact ⟨rfl, rfl⟩
    · exact relay_globals env p g

theorem open_upstream_globals (env : Env) (dst : sockaddr_in) (p : proxy) (g : Globals) :
    (open_upstream env dst p g).globals = { g with connections := wrap32 (g.connections - 1) } ∧
      (open_upstream env dst p g).flow.serial = p.serial := by
  unfold open_upstream
  simp only
  split
  · exact ⟨rfl, rfl⟩
  · split
    · exact ⟨rfl, rfl⟩
    · split
      · exact ⟨rfl, rfl⟩
      · exact handshake_globals env dst { p with remote := env.socket_ret } g

theorem accepter_globals (env : Env) (p : proxy) (g : Globals) :
    (accepter env p g).globals = { g with connections := wrap32 (g.connections - 1) } ∧
      (accepter env p g).flow.serial = p.serial := by
  unfold accepter
  split
  · exact ⟨rfl, rfl⟩
  · split
    · exact ⟨rfl, rfl⟩
    · exact open_upstream_globals env _ p g

/-! ## Admission -/

theorem main_accept_full (max_connections : Int) (upstream : sockaddr_in) (r : Int)
    (g : Globals) (h : g.connections ≥ max_connections) :
    main_accept max_connections upstream r g =
      { globals := g, flow := none,
        trace := [Event.mutex_lock,
          Event.logger Pri.LOG_ERR (Msg.too_many_connections max_connections),
          Event.close r, Event.mutex_unlock] } := by
  unfold main_accept
  rw [if_pos h]

theorem main_accept_room (max_connections : Int) (upstream : sockaddr_in) (r : Int)
    (g : Globals) (h : ¬ g.connections ≥ max_connections) :
    main_accept max_connections upstream r g =
      { globals := { connections := wrap32 (g.connections + 1),
                     conn_serial := wrap32 (g.conn_serial + 1) },
        flow := some { sin := upstream, local_ := r, remote := -1, serial := g.conn_serial,
                       sent := 0, recv := 0 },
        trace := [Event.mutex_lock, Event.pthread_create Thread.accepter,
          Event.mutex_unlock] } := by
  unfold main_accept
  rw [if_neg h]

theorem sys_step_finish (max_connections : Int) (upstream : sockaddr_in) (s s1 : Sys)
    (i : Nat) (env : Env)
    (hstep : sys_step max_connections upstream s (Step.finish i env) = some s1) :
    i < s.live.length ∧
      s1 = { globals := { s.globals with connections := wrap32 (s.globals.connections - 1) },
             live := s.live.eraseIdx i, serials := s.serials } := by
  simp only [sys_step] at hstep
  cases hget : s.live[i]? with
  | none => rw [hget] at hstep; simp at hstep
  | some p =>
    rw [hget] at hstep
    simp only [Option.some.injEq] at hstep
    obtain ⟨hi, _⟩ := List.getElem?_eq_some.mp hget
    refine ⟨hi, ?_⟩
    rw [← hstep, (accepter_globals env p s.globals).1]

theorem sys_step_count (max_connections : Int) (upstream : sockaddr_in)
    (h0 : 0 ≤ max_connections) (h1 : max_connections ≤ INT_MAX) (s s1 : Sys) (e : Step)
    (hs : s.globals.connections = (s.live.length : Int) ∧ (s.live.length : Int) ≤ max_connections)
    (hstep : sys_step max_connections upstream s e = some s1) :
    s1.globals.connections = (s1.live.length : Int) ∧
      (s1.live.length : Int) ≤ max_connections := by
  obtain ⟨hc, hle⟩ := hs
  unfold INT_MAX at h1
  cases e with
  | accept r =>
    simp only [sys_step, Option.some.injEq] at hstep
    subst hstep
    by_cases hge : s.globals.connections ≥ max_connections
    · rw [main_accept_full _ _ _ _ hge]
      simp [hc, hle]
    · rw [main_accept_room _ _ _ _ hge]
      simp only [Option.toList, List.length_append, List.length_singleton,
        Nat.cast_add, Nat.cast_one]
      constructor
      · rw [wrap32_of_range _ (by omega) (by omega)]; omega
      · omega
  | finish i env =>
    obtain ⟨hi, hs1⟩ := sys_step_finish _ _ _ _ _ _ hstep
    subst hs1
    simp only [List.length_eraseIdx, hi, if_true]
    constructor
    · rw [wrap32_of_range _ (by omega) (by omega)]; omega
    · omega

theorem sys_run_count (max_connections : Int) (upstream : sockaddr_in)
    (h0 : 0 ≤ max_connections) (h1 : max_connections ≤ INT_MAX) (steps : List Step) :
    ∀ (s s1 : Sys),
      s.globals.connections = (s.live.length : Int) ∧ (s.live.length : Int) ≤ max_connections →
      sys_run max_connections upstream s steps = some s1 →
      s1.globals.connections = (s1.live.length : Int) ∧
        (s1.live.length : Int) ≤ max_connections := by
  induction steps with
  | nil =>
    intro s s1 hs hrun
    simp only [sys_run, Option.some.injEq] at hrun
    subst hrun
    exact hs
  | cons e es ih =>
    intro s s1 hs hrun
    simp only [sys_run] at hrun
    cases hstep : sys_step max_connections upstream s e with
    | none => simp [hstep] at hrun
    | some s2 =>
      simp only [hstep] at hrun
      exact ih s2 s1 (sys_step_count max_connections upstream h0 h1 s s2 e hs hstep) hrun

/-- C5: from `connections = 0`, after any interleaving of accepts and of
handlers passing `done`, `connections` is the number of flows admitted and not
yet accounted for and lies between 0 and `max_connections`; an accept that
finds `connections >= max_connections` is rejected (the descriptor is closed,
the state is unchanged), and once a live flow has passed `done` the next
accept is admitted. -/
theorem admission_bounded (max_connections : Int) (upstream : sockaddr_in)
    (h0 : 0 ≤ max_connections) (h1 : max_connections ≤ INT_MAX) (steps : List Step) (s : Sys)
    (hrun : sys_run max_connections upstream Sys.init steps = some s) :
    s.globals.connections = (s.live.length : Int) ∧
      0 ≤ s.globals.connections ∧ s.globals.connections ≤ max_connections ∧
      (∀ r, s.globals.connections ≥ max_connections →
        sys_step max_connections upstream s (Step.accept r) = some s ∧
        (main_accept max_connections upstream r s.globals).flow = none ∧
        (main_accept max_connections upstream r s.globals).globals = s.globals ∧
        (main_accept max_connections upstream r s.globals).trace =
          [Event.mutex_lock,
           Event.logger Pri.LOG_ERR (Msg.too_many_connections max_connections),
           Event.close r, Event.mutex_unlock]) ∧
      (∀ r i env s1, s.globals.connections ≥ max_connections →
        sys_step max_connections upstream s (Step.finish i env) = some s1 →
        s1.globals.connections = s.globals.connections - 1 ∧
        ∃ f, (main_accept max_connections upstream r s1.globals).flow = some f ∧
          f.local_ = r ∧
          (main_accept max_connections upstream r s1.globals).globals.connections
            = s.globals.connections) := by
  have hinv := sys_run_count max_connections upstream h0 h1 steps Sys.init s
    (by simp [Sys.init]; exact h0) hrun
  obtain ⟨hc, hle⟩ := hinv
  refine ⟨hc, by omega, by omega, ?_, ?_⟩
  · intro r hge
    have hm := main_accept_full max_connections upstream r s.globals hge
    refine ⟨?_, by rw [hm], by rw [hm], by rw [hm]⟩
    simp [sys_step, hm]
  · intro r i env s1 hge hstep
    obtain ⟨hi, hs1⟩ := sys_step_finish _ _ _ _ _ _ hstep
    unfold INT_MAX at h1
    have hdec : s1.globals.connections = s.globals.connections - 1 := by
      rw [hs1]
      exact wrap32_of_range _ (by omega) (by omega)
    have hlt : ¬ s1.globals.connections ≥ max_connections := by omega
    refine ⟨hdec, ?_⟩
    rw [main_accept_room _ _ _ _ hlt]
    refine ⟨_, rfl, rfl, ?_⟩
    simp only
    rw [wrap32_of_range _ (by omega) (by omega)]
    omega

/-- Use of `admission_bounded` with `max_connections = 1`: a first connection
is admitted, a second one that overlaps is rejected, the first flow ends, and a
third connection is admitted. -/
theorem admission_bounded_witness :
    sys_run 1 ⟨3232235521, 8080⟩ Sys.init
        [Step.accept 5, Step.accept 6, Step.finish 0 env_no_destination, Step.accept 6]
      = some ⟨⟨1, 2⟩, [⟨⟨3232235521, 8080⟩, 6, -1, 1, 0, 0⟩], [0, 1]⟩ ∧
    (1 : Int) = ((1 : Nat) : Int) :=
  ⟨by decide,
    (admission_bounded 1 ⟨3232235521, 8080⟩ (by decide) (by decide)
      [Step.accept 5, Step.accept 6, Step.finish 0 env_no_destination, Step.accept 6]
      ⟨⟨1, 2⟩, [⟨⟨3232235521, 8080⟩, 6, -1, 1, 0, 0⟩], [0, 1]⟩ (by decide)).1⟩

/-! ## Serial numbers -/

theorem wrap32_add_wrap (x y : Int) : wrap32 (wrap32 x + y) = wrap32 (x + y) := by
  unfold wrap32
  omega

theorem sys_step_serials (max_connections : Int) (upstream : sockaddr_in) (s s1 : Sys)
    (e : Step)
    (hs : s.globals.conn_serial = wrap32 (s.serials.length : Int) ∧
      s.serials = (List.range s.serials.length).map (fun (k : Nat) => wrap32 (k : Int)))
    (hstep : sys_step max_connections upstream s e = some s1) :
    s1.globals.conn_serial = wrap32 (s1.serials.length : Int) ∧
      s1.serials = (List.range s1.serials.length).map (fun (k : Nat) => wrap32 (k : Int)) := by
  obtain ⟨hc, hser⟩ := hs
  cases e with
  | accept r =>
    simp only [sys_step, Option.some.injEq] at hstep
    subst hstep
    by_cases hge : s.globals.connections ≥ max_connections
    · rw [main_accept_full _ _ _ _ hge]
      simp only [Option.map, Option.toList, List.append_nil]
      exact ⟨hc, hser⟩
    · rw [main_accept_room _ _ _ _ hge]
      simp only [Option.map, Option.toList, List.length_append, List.length_singleton,
        Nat.cast_add, Nat.cast_one, List.range_succ, List.map_append, List.map_cons,
        List.map_nil]
      constructor
      · rw [hc, wrap32_add_wrap]
      · rw [← hser, hc]
  | finish i env =>
    obtain ⟨_, hs1⟩ := sys_step_finish _ _ _ _ _ _ hstep
    subst hs1
    exact ⟨hc, hser⟩

theorem sys_run_serials (max_connections : Int) (upstream : sockaddr_in) (steps : List Step) :
    ∀ (s s1 : Sys),
      (s.globals.conn_serial = wrap32 (s.serials.length : Int) ∧
        s.serials = (List.range s.serials.length).map (fun (k : Nat) => wrap32 (k : Int))) →
      sys_run max_connections upstream s steps = some s1 →
      (s1.globals.conn_serial = wrap32 (s1.serials.length : Int) ∧
        s1.serials = (List.range s1.serials.length).map (fun (k : Nat) => wrap32 (k : Int))) := by
  induction steps with
  | nil =>
    intro s s1 hs hrun
    simp only [sys_run, Option.some.injEq] at hrun
    subst hrun
    exact hs
  | cons e es ih =>
    intro s s1 hs hrun
    simp only [sys_run] at hrun
    cases hstep : sys_step max_connections upstream s e with
    | none => simp [hstep] at hrun
    | some s2 =>
      simp only [hstep] at hrun
      exact ih s2 s1 (sys_step_serials max_connections upstream s s2 e hs hstep) hrun

/-- C6, as the code has it: as long as no more than 2^31 flows have been
admitted, the serials handed out are 0, 1, 2, ... in accept order (the k-th
admitted flow, counted from 0, has serial k, so they are strictly increasing and
contiguous); a connection rejected at the cap leaves the whole state, and so
`conn_serial` and the list of serials, as it was; an admitted connection gets
the current `conn_serial`; and the handler never changes the serial of its
flow. -/
theorem serials_contiguous (max_connections : Int) (upstream : sockaddr_in)
    (steps : List Step) (s : Sys)
    (hrun : sys_run max_connections upstream Sys.init steps = some s)
    (hlen : s.serials.length ≤ 2147483648) :
    (∀ k, k < s.serials.length → s.serials[k]? = some (k : Int)) ∧
      (∀ (i j : Nat) (a b : Int), i < j → s.serials[i]? = some a → s.serials[j]? = some b →
        a < b) ∧
      (∀ r, s.globals.connections ≥ max_connections →
        sys_step max_connections upstream s (Step.accept r) = some s) ∧
      (∀ r f, (main_accept max_connections upstream r s.globals).flow = some f →
        f.serial = s.globals.conn_serial ∧
        (s.serials.length < 2147483648 → f.serial = (s.serials.length : Int))) ∧
      (∀ env p g, (accepter env p g).flow.serial = p.serial) := by
  obtain ⟨hc, hser⟩ := sys_run_serials max_connections upstream steps Sys.init s
    (by simp [Sys.init]; decide) hrun
  have hget : ∀ k, k < s.serials.length → s.serials[k]? = some (k : Int) := by
    intro k hk
    rw [hser, List.getElem?_map, List.getElem?_range (by simpa using hk)]
    simp only [Option.map_some', Option.some.injEq]
    exact wrap32_of_range _ (by omega) (by omega)
  refine ⟨hget, ?_, ?_, ?_, fun env p g => (accepter_globals env p g).2⟩
  · intro i j a b hij ha hb
    have hj : j < s.serials.length := (List.getElem?_eq_some.mp hb).1
    have hi : i < s.serials.length := by omega
    rw [hget i hi] at ha
    rw [hget j hj] at hb
    simp only [Option.some.injEq] at ha hb
    omega
  · intro r hge
    simp [sys_step, main_accept_full _ _ _ _ hge]
  · intro r f hf
    by_cases hge : s.globals.connections ≥ max_connections
    · rw [main_accept_full _ _ _ _ hge] at hf
      simp at hf
    · rw [main_accept_room _ _ _ _ hge] at hf
      simp only [Option.some.injEq] at hf
      subst hf
      refine ⟨rfl, fun hlt => ?_⟩
      simp only
      rw [hc]
      exact wrap32_of_range _ (by omega) (by omega)

/-- Use of `serials_contiguous` with `max_connections = 1`: of three
connections the second is rejected; the admitted ones have serials 0 and 1. -/
theorem serials_contiguous_witness :
    sys_run 1 ⟨3232235521, 8080⟩ Sys.init
        [Step.accept 5, Step.accept 6, Step.finish 0 env_no_destination, Step.accept 6]
      = some ⟨⟨1, 2⟩, [⟨⟨3232235521, 8080⟩, 6, -1, 1, 0, 0⟩], [0, 1]⟩ ∧
    [(0 : Int), 1][1]? = some ((1 : Nat) : Int) :=
  ⟨by decide,
    (serials_contiguous 1 ⟨3232235521, 8080⟩
      [Step.accept 5, Step.accept 6, Step.finish 0 env_no_destination, Step.accept 6]
      ⟨⟨1, 2⟩, [⟨⟨3232235521, 8080⟩, 6, -1, 1, 0, 0⟩], [0, 1]⟩ (by decide) (by decide)).1 1
      (by decide)⟩

theorem run_accept_finish (upstream : sockaddr_in) (k : Nat) :
    ∀ (c : Int) (A : List Int),
      sys_run 1 upstream ⟨⟨0, wrap32 c⟩, [], A⟩
          (List.replicate k [Step.accept 5, Step.finish 0 env_no_destination]).flatten
        = some ⟨⟨0, wrap32 (c + k)⟩, [],
            A ++ (List.range k).map (fun (i : Nat) => wrap32 (c + (i : Int)))⟩ := by
  induction k with
  | zero => intro c A; simp [sys_run]
  | succ k ih =>
    intro c A
    have h1 : ¬ (0 : Int) ≥ 1 := by decide
    have hstep1 : sys_step 1 upstream ⟨⟨0, wrap32 c⟩, [], A⟩ (Step.accept 5) =
        some ⟨⟨1, wrap32 (c + 1)⟩,
          [⟨upstream, 5, -1, wrap32 c, 0, 0⟩], A ++ [wrap32 c]⟩ := by
      simp only [sys_step, main_accept_room 1 upstream 5 ⟨0, wrap32 c⟩ h1, Option.toList,
        Option.map, List.nil_append, wrap32_add_wrap]
      rfl
    have hstep2 : sys_step 1 upstream ⟨⟨1, wrap32 (c + 1)⟩,
          [⟨upstream, 5, -1, wrap32 c, 0, 0⟩], A ++ [wrap32 c]⟩
          (Step.finish 0 env_no_destination) =
        some ⟨⟨0, wrap32 (c + 1)⟩, [], A ++ [wrap32 c]⟩ := by
      simp only [sys_step, List.getElem?_cons_zero, (accepter_globals _ _ _).1,
        List.eraseIdx_cons_zero]
      rfl
    have hfl : (List.replicate (k + 1)
          [Step.accept 5, Step.finish 0 env_no_destination]).flatten =
        Step.accept 5 :: Step.finish 0 env_no_destination ::
          (List.replicate k [Step.accept 5, Step.finish 0 env_no_destination]).flatten := by
      rw [List.replicate_succ, List.flatten_cons]
      rfl
    rw [hfl]
    simp only [sys_run, hstep1, hstep2]
    rw [ih (c + 1) (A ++ [wrap32 c]), List.range_succ_eq_map]
    simp only [List.map_cons, List.map_map, List.append_assoc, List.singleton_append,
      Nat.cast_zero, add_zero, Nat.cast_add, Nat.cast_one]
    have hm : List.map (fun (i : Nat) => wrap32 (c + 1 + (i : Int))) (List.range k) =
        List.map ((fun (i : Nat) => wrap32 (c + (i : Int))) ∘ Nat.succ) (List.range k) := by
      apply List.map_congr_left
      intro i _
      simp only [Function.comp, Nat.succ_eq_add_one, Nat.cast_add, Nat.cast_one]
      ring_nf
    rw [hm]
    have hc : c + 1 + (k : Int) = c + ((k : Int) + 1) := by ring
    rw [hc]

/-- C6 as stated fails: with `max_connections = 1`, after 2147483648 flows
have been admitted one after the other, the next admitted flow (number
2147483648, counted from 0) does not get serial 2147483648; `conn_serial` is an
`int` and has wrapped to -2147483648, below the serial of the flow before. -/
theorem serial_wraps_after_two_pow_31 :
    ∃ s, sys_run 1 ⟨3232235521, 8080⟩ Sys.init many_flows = some s ∧
      s.serials[2147483647]? = some 2147483647 ∧
      s.serials[2147483648]? = some (-2147483648) ∧
      s.serials[2147483648]? ≠ some 2147483648 := by
  have h := run_accept_finish ⟨3232235521, 8080⟩ 2147483649 0 []
  have h0 : (⟨⟨0, wrap32 0⟩, [], []⟩ : Sys) = Sys.init := by decide
  rw [h0] at h
  refine ⟨_, h, ?_, ?_, ?_⟩
  · rw [List.nil_append, List.getElem?_map, List.getElem?_range (by decide)]
    decide
  · rw [List.nil_append, List.getElem?_map, List.getElem?_range (by decide)]
    decide
  · rw [List.nil_append, List.getElem?_map, List.getElem?_range (by decide)]
    decide

/-! ## Reading from a descriptor -/

theorem streamOf_pushback (l : List Nat) (r : List ReadEv) :
    streamOf (pushback l r) = l ++ streamOf r := by
  cases l <;> simp [pushback, streamOf]

theorem sockSize_pushback (l : List Nat) (r : List ReadEv) :
    sockSize (pushback l r) = l.length + sockSize r := by
  cases l <;> simp [pushback, sockSize]

/-- What a call of `iread` with a positive `count` gives: an error or the end
of the stream, with nothing delivered, or between 1 and `count` bytes, which
are the next bytes of the stream. -/
theorem iread_spec (count : Nat) (hc : 0 < count) (sock : List ReadEv) :
    ((iread count sock).n = -1 ∧ (iread count sock).bytes = [] ∧ streamOf sock = []) ∨
    ((iread count sock).n = 0 ∧ (iread count sock).bytes = [] ∧ streamOf sock = []) ∨
    (0 < (iread count sock).n ∧
      (iread count sock).n = ((iread count sock).bytes.length : Int) ∧
      (iread count sock).bytes.length ≤ count ∧
      streamOf sock = (iread count sock).bytes ++ streamOf (iread count sock).rest ∧
      sockSize (iread count sock).rest < sockSize sock) := by
  induction sock with
  | nil => right; left; simp [iread, read, streamOf]
  | cons e r ih =>
    cases e with
    | eintr =>
      simp only [iread, streamOf, sockSize]
      rcases ih with h | h | ⟨h1, h2, h3, h4, h5⟩
      · exact Or.inl h
      · exact Or.inr (Or.inl h)
      · exact Or.inr (Or.inr ⟨h1, h2, h3, h4, by omega⟩)
    | error => left; simp [iread, read, streamOf]
    | data b bs =>
      right; right
      obtain ⟨m, rfl⟩ : ∃ m, count = m + 1 := ⟨count - 1, by omega⟩
      simp only [iread, read, streamOf_pushback, sockSize_pushback, streamOf, sockSize,
        List.take_succ_cons, List.drop_succ_cons, List.length_cons, List.length_take,
        List.length_drop, List.cons_append]
      refine ⟨by omega, by simp, by omega, ?_, by omega⟩
      rw [← List.append_assoc, List.take_append_drop]

/-! ## The header scan -/

theorem read_bytes_append (a b : List Event) :
    read_bytes (a ++ b) = read_bytes a ++ read_bytes b := by
  induction a with
  | nil => rfl
  | cons e t ih => cases e <;> simp [read_bytes, ih]

theorem read_bytes_io_warning (n : Int) (ctx : Ctx) : read_bytes (io_warning n ctx) = [] := by
  unfold io_warning
  split <;> rfl

theorem spec_step_cast (n c : Nat) :
    ((spec_step n c : Nat) : Int) =
      if c = 10 then (n : Int) + 1 else if c ≠ 13 then 0 else (n : Int) := by
  unfold spec_step
  by_cases h10 : c = 10
  · simp [h10]
  · by_cases h13 : c = 13
    · simp [h13]
    · simp [h10, h13]

/-- The loop of the header scan against the cut of the stream: with enough
iterations allowed, it stops exactly when the stream has a terminator, has then
stored the bytes up to the terminator and left the bytes behind it. -/
theorem scan_loop_spec (fd : Int) (fuel : Nat) :
    ∀ (n : Nat) (buf : List Nat) (sock : List ReadEv), sockSize sock < fuel →
      (∀ a b, find_terminator n (streamOf sock) = some (a, b) →
        (scan_loop fd fuel n buf sock).stopped = true ∧
        (scan_loop fd fuel n buf sock).buf = buf ++ a ∧
        streamOf (scan_loop fd fuel n buf sock).rest = b ∧
        read_bytes (scan_loop fd fuel n buf sock).trace = a) ∧
      (find_terminator n (streamOf sock) = none →
        (scan_loop fd fuel n buf sock).stopped = false ∧
        (scan_loop fd fuel n buf sock).buf = buf ++ streamOf sock) := by
  induction fuel with
  | zero => intro n buf sock h; omega
  | succ fuel ih =>
    intro n buf sock hsz
    by_cases hn : 2 ≤ n
    · have hcond : ¬ ((n : Int) < 2) := by omega
      have hres : scan_loop fd (fuel + 1) n buf sock = ⟨true, buf, sock, []⟩ := by
        unfold scan_loop
        rw [if_neg hcond]
      have hfind : find_terminator n (streamOf sock) = some ([], streamOf sock) := by
        cases streamOf sock <;> simp [find_terminator, hn]
      rw [hres, hfind]
      constructor
      · intro a b hab
        simp only [Option.some.injEq, Prod.mk.injEq] at hab
        obtain ⟨ha, hb⟩ := hab
        subst ha; subst hb
        simp [read_bytes]
      · intro h; simp at h
    · have hcond : ((n : Int) < 2) := by omega
      rcases iread_spec 1 (by decide) sock with ⟨h1, _, h3⟩ | ⟨h1, _, h3⟩ | ⟨h1, h2, h3, h4, h5⟩
      · have hres : (scan_loop fd (fuel + 1) n buf sock).stopped = false ∧
            (scan_loop fd (fuel + 1) n buf sock).buf = buf := by
          unfold scan_loop
          rw [if_pos hcond]
          simp [h1]
        rw [h3]
        simp [find_terminator, hn, hres.1, hres.2]
      · have hres : (scan_loop fd (fuel + 1) n buf sock).stopped = false ∧
            (scan_loop fd (fuel + 1) n buf sock).buf = buf := by
          unfold scan_loop
          rw [if_pos hcond]
          simp [h1]
        rw [h3]
        simp [find_terminator, hn, hres.1, hres.2]
      · have hlen : (iread 1 sock).bytes.length = 1 := by omega
        obtain ⟨c, hc⟩ : ∃ c, (iread 1 sock).bytes = [c] := by
          cases hb : (iread 1 sock).bytes with
          | nil => rw [hb] at hlen; simp at hlen
          | cons c t =>
            cases t with
            | nil => exact ⟨c, rfl⟩
            | cons d t2 => rw [hb] at hlen; simp at hlen
        have hn1 : (iread 1 sock).n = 1 := by rw [h2, hlen]; rfl
        have hst : streamOf sock = c :: streamOf (iread 1 sock).rest := by
          rw [h4, hc]; rfl
        have hres : scan_loop fd (fuel + 1) n buf sock =
            ⟨(scan_loop fd fuel (spec_step n c) (buf ++ [c]) (iread 1 sock).rest).stopped,
             (scan_loop fd fuel (spec_step n c) (buf ++ [c]) (iread 1 sock).rest).buf,
             (scan_loop fd fuel (spec_step n c) (buf ++ [c]) (iread 1 sock).rest).rest,
             (Event.iread fd 1 1 [c] :: io_warning 1 Ctx.proxy_read) ++
               (scan_loop fd fuel (spec_step n c) (buf ++ [c]) (iread 1 sock).rest).trace⟩ := by
          rw [spec_step_cast]
          conv => lhs; unfold scan_loop
          rw [if_pos hcond]
          simp only [hn1, hc, ne_eq, not_true_eq_false, if_false, List.headD_cons]
        have hih := ih (spec_step n c) (buf ++ [c]) (iread 1 sock).rest (by omega)
        rw [hres, hst]
        simp only [find_terminator, hn, if_false]
        constructor
        · intro a b hab
          cases hf : find_terminator (spec_step n c) (streamOf (iread 1 sock).rest) with
          | none => rw [hf] at hab; simp at hab
          | some ab =>
            obtain ⟨a1, b1⟩ := ab
            rw [hf] at hab
            simp only [Option.map_some', Option.some.injEq, Prod.mk.injEq] at hab
            obtain ⟨ha, hb⟩ := hab
            subst ha; subst hb
            obtain ⟨i1, i2, i3, i4⟩ := hih.1 a1 b1 hf
            refine ⟨i1, ?_, i3, ?_⟩
            · simp [i2]
            · simp [read_bytes, read_bytes_append, read_bytes_io_warning, i4]
        · intro hnone
          have hf : find_terminator (spec_step n c) (streamOf (iread 1 sock).rest) = none := by
            cases hf : find_terminator (spec_step n c) (streamOf (iread 1 sock).rest) with
            | none => rfl
            | some ab => rw [hf] at hnone; simp at hnone
          obtain ⟨i1, i2⟩ := hih.2 hf
          exact ⟨i1, by simp [i2]⟩

/-! ## The cut of a stream at its terminator -/

theorem scan_header_cases (fd : Int) (sock : List ReadEv) :
    (∃ a b, find_terminator 0 (streamOf sock) = some (a, b) ∧
      (scan_header fd sock).stopped = true ∧ (scan_header fd sock).buf = a ∧
      streamOf (scan_header fd sock).rest = b ∧
      read_bytes (scan_header fd sock).trace = a) ∨
    (find_terminator 0 (streamOf sock) = none ∧
      (scan_header fd sock).stopped = false ∧
      (scan_header fd sock).buf = streamOf sock) := by
  have h := scan_loop_spec fd (sockSize sock + 1) 0 [] sock (by omega)
  cases hf : find_terminator 0 (streamOf sock) with
  | none =>
    right
    obtain ⟨h1, h2⟩ := h.2 hf
    exact ⟨rfl, h1, by simpa using h2⟩
  | some ab =>
    obtain ⟨a, b⟩ := ab
    left
    obtain ⟨h1, h2, h3, h4⟩ := h.1 a b hf
    exact ⟨a, b, rfl, h1, by simpa using h2, h3, h4⟩

theorem find_terminator_filler (k : Nat) :
    find_terminator 0 (List.replicate k 65 ++ [10, 10]) =
      some (List.replicate k 65 ++ [10, 10], []) := by
  induction k with
  | zero => decide
  | succ k ih =>
    rw [List.replicate_succ, List.cons_append]
    simp only [find_terminator]
    have h0 : spec_step 0 65 = 0 := by decide
    rw [h0, ih]
    rfl

theorem scan_header_filler (fd : Int) (k : Nat) :
    (scan_header fd [ReadEv.data 65 (List.replicate k 65 ++ [10, 10])]).stopped = true ∧
      (scan_header fd [ReadEv.data 65 (List.replicate k 65 ++ [10, 10])]).buf =
        65 :: (List.replicate k 65 ++ [10, 10]) := by
  have hstream : streamOf [ReadEv.data 65 (List.replicate k 65 ++ [10, 10])] =
      65 :: (List.replicate k 65 ++ [10, 10]) := by
    simp only [streamOf, List.append_nil, List.cons_append]
  have hf : find_terminator 0 (streamOf [ReadEv.data 65 (List.replicate k 65 ++ [10, 10])]) =
      some (65 :: (List.replicate k 65 ++ [10, 10]), []) := by
    have := find_terminator_filler (k + 1)
    rw [List.replicate_succ 65 k, List.cons_append] at this
    rw [hstream]
    exact this
  rcases scan_header_cases fd [ReadEv.data 65 (List.replicate k 65 ++ [10, 10])] with
    ⟨a, b, h0, h1, h2, _, _⟩ | ⟨h0, _, _⟩
  · rw [hf] at h0
    simp only [Option.some.injEq, Prod.mk.injEq] at h0
    exact ⟨h1, by rw [h2, ← h0.1]⟩
  · rw [hf] at h0; simp at h0

/-- C8, at a failing input: on a header block of 8192 bytes `A` followed by
the blank line the scan stores all 8194 bytes, at `buf[0]` to `buf[8193]`, and
the NUL goes to `buf[8194]`.  The loop has no test against the 8192 bytes of
`buf`: a block of `k + 1` bytes `A` and the blank line is stored whole, whatever
`k` is. -/
theorem scan_header_overruns_buf :
    (scan_header 7 overlong_header).stopped = true ∧
      (scan_header 7 overlong_header).buf = 65 :: (List.replicate 8191 65 ++ [10, 10]) ∧
      (scan_header 7 overlong_header).buf.length = 8194 ∧
      8192 < (scan_header 7 overlong_header).buf.length + 1 ∧
      (∀ (fd : Int) (k : Nat),
        (scan_header fd [ReadEv.data 65 (List.replicate k 65 ++ [10, 10])]).buf.length
          = k + 3) := by
  obtain ⟨h1, hbuf⟩ := scan_header_filler 7 8191
  have hbuf2 : (scan_header 7 overlong_header).buf =
      65 :: (List.replicate 8191 65 ++ [10, 10]) := hbuf
  refine ⟨h1, hbuf2, ?_, ?_, ?_⟩
  · rw [hbuf2]
    simp only [List.length_cons, List.length_append, List.length_replicate, List.length_nil]
  · rw [hbuf2]
    simp only [List.length_cons, List.length_append, List.length_replicate, List.length_nil]
    decide
  · intro fd k
    rw [(scan_header_filler fd k).2]
    simp only [List.length_cons, List.length_append, List.length_replicate, List.length_nil]

/-! ## The relay -/

theorem wire_append (fd : Int) (a b : List Event) :
    wire fd (a ++ b) = wire fd a ++ wire fd b := by
  induction a with
  | nil => rfl
  | cons e t ih => cases e <;> simp [wire, ih]

theorem wire_io_warning (fd : Int) (n : Int) (ctx : Ctx) : wire fd (io_warning n ctx) = [] := by
  unfold io_warning
  split <;> rfl

theorem wire_at_done (fd : Int) (p : proxy) (g : Globals) : wire fd (at_done p g).trace = [] := by
  unfold at_done
  simp only
  split <;> split <;> rfl

/-- What a call of `iwrite` gives: an error, or a count with at least one
scripted result used up. -/
theorem iwrite_spec (out : List WriteEv) :
    (iwrite out).n < 0 ∨ (0 ≤ (iwrite out).n ∧ (iwrite out).rest.length < out.length) := by
  induction out with
  | nil => left; simp [iwrite, write]
  | cons e r ih =>
    cases e with
    | ret m => right; simp [iwrite, write]
    | eintr =>
      simp only [iwrite, List.length_cons]
      rcases ih with h | ⟨h1, h2⟩
      · exact Or.inl h
      · exact Or.inr ⟨h1, by omega⟩
    | error => left; simp [iwrite, write]

/-- The inner loop of a pump puts a prefix of its buffer on the descriptor, in
order; all of it unless a write has failed. -/
theorem drain_wire (fd : Int) (ctx : Ctx) (fuel : Nat) :
    ∀ (n : Int) (ptr : List Nat) (out : List WriteEv),
      n.toNat = ptr.length → out.length < fuel →
      wire fd (drain fd ctx fuel n ptr out).trace <+: ptr ∧
      ((drain fd ctx fuel n ptr out).failed = false →
        wire fd (drain fd ctx fuel n ptr out).trace = ptr) ∧
      ((drain fd ctx fuel n ptr out).failed = true →
        ∃ buf m, Event.iwrite fd buf m ∈ (drain fd ctx fuel n ptr out).trace ∧ m < 0) := by
  induction fuel with
  | zero => intro n ptr out _ h; omega
  | succ fuel ih =>
    intro n ptr out hn hfuel
    by_cases hpos : n > 0
    · rcases iwrite_spec out with hneg | ⟨hge, hlen⟩
      · have hres : drain fd ctx (fuel + 1) n ptr out =
            ⟨true, (iwrite out).rest,
              Event.iwrite fd (ptr.take n.toNat) (iwrite out).n ::
                io_warning (iwrite out).n ctx⟩ := by
          conv => lhs; unfold drain
          rw [if_pos hpos]
          simp only [hneg, if_true]
        rw [hres]
        have hnot : ¬ (0 ≤ (iwrite out).n) := by omega
        refine ⟨?_, by simp, fun _ => ⟨_, _, List.mem_cons_self _ _, hneg⟩⟩
        simp [wire, hnot, wire_io_warning]
      · have hnot : ¬ ((iwrite out).n < 0) := by omega
        have hres : drain fd ctx (fuel + 1) n ptr out =
            ⟨(drain fd ctx fuel (n - (iwrite out).n) (ptr.drop (iwrite out).n.toNat)
                (iwrite out).rest).failed,
             (drain fd ctx fuel (n - (iwrite out).n) (ptr.drop (iwrite out).n.toNat)
                (iwrite out).rest).rest,
             (Event.iwrite fd (ptr.take n.toNat) (iwrite out).n ::
                io_warning (iwrite out).n ctx) ++
              (drain fd ctx fuel (n - (iwrite out).n) (ptr.drop (iwrite out).n.toNat)
                (iwrite out).rest).trace⟩ := by
          conv => lhs; unfold drain
          rw [if_pos hpos]
          simp only [hnot, if_false]
        have hinv : (n - (iwrite out).n).toNat = (ptr.drop (iwrite out).n.toNat).length := by
          rw [List.length_drop]; omega
        obtain ⟨i1, i2, i3⟩ := ih (n - (iwrite out).n) (ptr.drop (iwrite out).n.toNat)
          (iwrite out).rest hinv (by omega)
        have htake : ptr.take n.toNat = ptr := by rw [hn]; exact List.take_length ptr
        have hw : wire fd ((Event.iwrite fd (ptr.take n.toNat) (iwrite out).n ::
              io_warning (iwrite out).n ctx) ++
            (drain fd ctx fuel (n - (iwrite out).n) (ptr.drop (iwrite out).n.toNat)
              (iwrite out).rest).trace) =
            ptr.take (iwrite out).n.toNat ++
              wire fd (drain fd ctx fuel (n - (iwrite out).n) (ptr.drop (iwrite out).n.toNat)
                (iwrite out).rest).trace := by
          rw [wire_append]
          simp [wire, hge, wire_io_warning, htake]
        rw [hres]
        simp only [hw]
        refine ⟨?_, ?_, ?_⟩
        · have := (List.prefix_append_right_inj (ptr.take (iwrite out).n.toNat)).mpr i1
          rwa [List.take_append_drop] at this
        · intro hf
          rw [i2 hf, List.take_append_drop]
        · intro hf
          obtain ⟨buf, m, hm, hlt⟩ := i3 hf
          exact ⟨buf, m, List.mem_append_right _ hm, hlt⟩
    · have hres : drain fd ctx (fuel + 1) n ptr out = ⟨false, out, []⟩ := by
        conv => lhs; unfold drain
        rw [if_neg hpos]
      have hnil : ptr = [] := by
        apply List.eq_nil_of_length_eq_zero
        omega
      rw [hres, hnil]
      simp [wire]

/-- The reader pump: with enough iterations allowed it leaves through one of
its three exits, and what it has put on `remote` is a prefix of the local
stream, the whole of it unless a write failed. -/
theorem reader_loop_wire (p : proxy) (fuel : Nat) :
    ∀ (sent : Int) (lin : List ReadEv) (rout : List WriteEv), sockSize lin < fuel →
      (reader_loop p fuel sent lin rout).exit ≠ PumpExit.out_of_steps ∧
      wire p.remote (reader_loop p fuel sent lin rout).trace <+: streamOf lin ∧
      ((reader_loop p fuel sent lin rout).exit ≠ PumpExit.write_error →
        wire p.remote (reader_loop p fuel sent lin rout).trace = streamOf lin) ∧
      ((reader_loop p fuel sent lin rout).exit = PumpExit.write_error →
        ∃ buf m, Event.iwrite p.remote buf m ∈ (reader_loop p fuel sent lin rout).trace ∧
          m < 0) := by
  induction fuel with
  | zero => intro sent lin rout h; omega
  | succ fuel ih =>
    intro sent lin rout hsz
    rcases iread_spec 8192 (by decide) lin with ⟨h1, _, h3⟩ | ⟨h1, _, h3⟩ | ⟨h1, h2, _, h4, h5⟩
    · have hres : reader_loop p (fuel + 1) sent lin rout =
          ⟨PumpExit.read_error, sent, (iread 8192 lin).rest, rout,
            Event.iread p.local_ 8192 (iread 8192 lin).n (iread 8192 lin).bytes ::
              io_warning (iread 8192 lin).n Ctx.local_read⟩ := by
        conv => lhs; unfold reader_loop
        simp [h1]
      rw [hres, h3]
      simp [wire, wire_io_warning]
    · have hres : reader_loop p (fuel + 1) sent lin rout =
          ⟨PumpExit.eof, sent, (iread 8192 lin).rest, rout,
            (Event.iread p.local_ 8192 (iread 8192 lin).n (iread 8192 lin).bytes ::
              io_warning (iread 8192 lin).n Ctx.local_read) ++
              [Event.shutdown_wr p.remote]⟩ := by
        conv => lhs; unfold reader_loop
        simp [h1]
      rw [hres, h3]
      simp [wire, wire_append, wire_io_warning]
    · have hn0 : ¬ ((iread 8192 lin).n < 0) := by omega
      have hn1 : ¬ ((iread 8192 lin).n = 0) := by omega
      obtain ⟨d1, d2, d3⟩ := drain_wire p.remote Ctx.remote_write (rout.length + 1)
        (iread 8192 lin).n (iread 8192 lin).bytes rout (by omega) (by omega)
      have hev : ∀ t, wire p.remote
          ((Event.iread p.local_ 8192 (iread 8192 lin).n (iread 8192 lin).bytes ::
            io_warning (iread 8192 lin).n Ctx.local_read) ++ t) = wire p.remote t := by
        intro t
        simp [wire, wire_append, wire_io_warning]
      cases hfail : (drain p.remote Ctx.remote_write (rout.length + 1) (iread 8192 lin).n
          (iread 8192 lin).bytes rout).failed with
      | true =>
        have hres : reader_loop p (fuel + 1) sent lin rout =
            ⟨PumpExit.write_error, wrap32 (sent + (iread 8192 lin).n), (iread 8192 lin).rest,
              (drain p.remote Ctx.remote_write (rout.length + 1) (iread 8192 lin).n
                (iread 8192 lin).bytes rout).rest,
              (Event.iread p.local_ 8192 (iread 8192 lin).n (iread 8192 lin).bytes ::
                io_warning (iread 8192 lin).n Ctx.local_read) ++
              (drain p.remote Ctx.remote_write (rout.length + 1) (iread 8192 lin).n
                (iread 8192 lin).bytes rout).trace⟩ := by
          conv => lhs; unfold reader_loop
          simp only [hn0, hn1, hfail, if_false, if_true]
        rw [hres]
        simp only [hev]
        refine ⟨by simp, ?_, by simp, fun _ => ?_⟩
        · rw [h4]
          exact d1.trans (List.prefix_append _ _)
        · obtain ⟨buf, m, hm, hlt⟩ := d3 hfail
          exact ⟨buf, m, List.mem_append_right _ hm, hlt⟩
      | false =>
        have hres : reader_loop p (fuel + 1) sent lin rout =
            ⟨(reader_loop p fuel (wrap32 (sent + (iread 8192 lin).n)) (iread 8192 lin).rest
                (drain p.remote Ctx.remote_write (rout.length + 1) (iread 8192 lin).n
                  (iread 8192 lin).bytes rout).rest).exit,
             (reader_loop p fuel (wrap32 (sent + (iread 8192 lin).n)) (iread 8192 lin).rest
                (drain p.remote Ctx.remote_write (rout.length + 1) (iread 8192 lin).n
                  (iread 8192 lin).bytes rout).rest).count,
             (reader_loop p fuel (wrap32 (sent + (iread 8192 lin).n)) (iread 8192 lin).rest
                (drain p.remote Ctx.remote_write (rout.length + 1) (iread 8192 lin).n
                  (iread 8192 lin).bytes rout).rest).rest_in,
             (reader_loop p fuel (wrap32 (sent + (iread 8192 lin).n)) (iread 8192 lin).rest
                (drain p.remote Ctx.remote_write (rout.length + 1) (iread 8192 lin).n
                  (iread 8192 lin).bytes rout).rest).rest_out,
             (Event.iread p.local_ 8192 (iread 8192 lin).n (iread 8192 lin).bytes ::
                io_warning (iread 8192 lin).n Ctx.local_read) ++
              (drain p.remote Ctx.remote_write (rout.length + 1) (iread 8192 lin).n
                (iread 8192 lin).bytes rout).trace ++
              (reader_loop p fuel (wrap32 (sent + (iread 8192 lin).n)) (iread 8192 lin).rest
                (drain p.remote Ctx.remote_write (rout.length + 1) (iread 8192 lin).n
                  (iread 8192 lin).bytes rout).rest).trace⟩ := by
          conv => lhs; unfold reader_loop
          simp only [hn0, hn1, hfail, if_false, Bool.false_eq_true]
        obtain ⟨i1, i2, i3, i4⟩ := ih (wrap32 (sent + (iread 8192 lin).n)) (iread 8192 lin).rest
          (drain p.remote Ctx.remote_write (rout.length + 1) (iread 8192 lin).n
            (iread 8192 lin).bytes rout).rest (by omega)
        rw [hres]
        simp only [List.append_assoc, hev, wire_append, d2 hfail]
        refine ⟨i1, ?_, ?_, ?_⟩
        · rw [h4]
          exact (List.prefix_append_right_inj _).mpr i2
        · intro hne
          rw [h4, i3 hne]
        · intro he
          obtain ⟨buf, m, hm, hlt⟩ := i4 he
          exact ⟨buf, m, List.mem_append_right _ (List.mem_append_right _ hm), hlt⟩

/-- The loop of `writer`: the same in the other direction. -/
theorem writer_loop_wire (p : proxy) (fuel : Nat) :
    ∀ (recv : Int) (rin : List ReadEv) (lout : List WriteEv), sockSize rin < fuel →
      (writer_loop p fuel recv rin lout).exit ≠ PumpExit.out_of_steps ∧
      wire p.local_ (writer_loop p fuel recv rin lout).trace <+: streamOf rin ∧
      ((writer_loop p fuel recv rin lout).exit ≠ PumpExit.write_error →
        wire p.local_ (writer_loop p fuel recv rin lout).trace = streamOf rin) ∧
      ((writer_loop p fuel recv rin lout).exit = PumpExit.write_error →
        ∃ buf m, Event.iwrite p.local_ buf m ∈ (writer_loop p fuel recv rin lout).trace ∧
          m < 0) := by
  induction fuel with
  | zero => intro recv rin lout h; omega
  | succ fuel ih =>
    intro recv rin lout hsz
    rcases iread_spec 8192 (by decide) rin with ⟨h1, _, h3⟩ | ⟨h1, _, h3⟩ | ⟨h1, h2, _, h4, h5⟩
    · have hres : writer_loop p (fuel + 1) recv rin lout =
          ⟨PumpExit.read_error, recv, (iread 8192 rin).rest, lout,
            Event.iread p.remote 8192 (iread 8192 rin).n (iread 8192 rin).bytes ::
              io_warning (iread 8192 rin).n Ctx.remote_read⟩ := by
        conv => lhs; unfold writer_loop
        simp [h1]
      rw [hres, h3]
      simp [wire, wire_io_warning]
    · have hres : writer_loop p (fuel + 1) recv rin lout =
          ⟨PumpExit.eof, recv, (iread 8192 rin).rest, lout,
            Event.iread p.remote 8192 (iread 8192 rin).n (iread 8192 rin).bytes ::
              io_warning (iread 8192 rin).n Ctx.remote_read⟩ := by
        conv => lhs; unfold writer_loop
        simp [h1]
      rw [hres, h3]
      simp [wire, wire_io_warning]
    · obtain ⟨d1, d2, d3⟩ := drain_wire p.local_ Ctx.local_write (lout.length + 1)
        (iread 8192 rin).n (iread 8192 rin).bytes lout (by omega) (by omega)
      have hev : ∀ t, wire p.local_
          ((Event.iread p.remote 8192 (iread 8192 rin).n (iread 8192 rin).bytes ::
            io_warning (iread 8192 rin).n Ctx.remote_read) ++ t) = wire p.local_ t := by
        intro t
        simp [wire, wire_append, wire_io_warning]
      cases hfail : (drain p.local_ Ctx.local_write (lout.length + 1) (iread 8192 rin).n
          (iread 8192 rin).bytes lout).failed with
      | true =>
        have hres : writer_loop p (fuel + 1) recv rin lout =
            ⟨PumpExit.write_error, wrap32 (recv + (iread 8192 rin).n), (iread 8192 rin).rest,
              (drain p.local_ Ctx.local_write (lout.length + 1) (iread 8192 rin).n
                (iread 8192 rin).bytes lout).rest,
              (Event.iread p.remote 8192 (iread 8192 rin).n (iread 8192 rin).bytes ::
                io_warning (iread 8192 rin).n Ctx.remote_read) ++
              (drain p.local_ Ctx.local_write (lout.length + 1) (iread 8192 rin).n
                (iread 8192 rin).bytes lout).trace⟩ := by
          conv => lhs; unfold writer_loop
          simp only [gt_iff_lt, h1, hfail, if_true]
        rw [hres]
        simp only [hev]
        refine ⟨by simp, ?_, by simp, fun _ => ?_⟩
        · rw [h4]
          exact d1.trans (List.prefix_append _ _)
        · obtain ⟨buf, m, hm, hlt⟩ := d3 hfail
          exact ⟨buf, m, List.mem_append_right _ hm, hlt⟩
      | false =>
        have hres : writer_loop p (fuel + 1) recv rin lout =
            ⟨(writer_loop p fuel (wrap32 (recv + (iread 8192 rin).n)) (iread 8192 rin).rest
                (drain p.local_ Ctx.local_write (lout.length + 1) (iread 8192 rin).n
                  (iread 8192 rin).bytes lout).rest).exit,
             (writer_loop p fuel (wrap32 (recv + (iread 8192 rin).n)) (iread 8192 rin).rest
                (drain p.local_ Ctx.local_write (lout.length + 1) (iread 8192 rin).n
                  (iread 8192 rin).bytes lout).rest).count,
             (writer_loop p fuel (wrap32 (recv + (iread 8192 rin).n)) (iread 8192 rin).rest
                (drain p.local_ Ctx.local_write (lout.length + 1) (iread 8192 rin).n
                  (iread 8192 rin).bytes lout).rest).rest_in,
             (writer_loop p fuel (wrap32 (recv + (iread 8192 rin).n)) (iread 8192 rin).rest
                (drain p.local_ Ctx.local_write (lout.length + 1) (iread 8192 rin).n
                  (iread 8192 rin).bytes lout).rest).rest_out,
             (Event.iread p.remote 8192 (iread 8192 rin).n (iread 8192 rin).bytes ::
                io_warning (iread 8192 rin).n Ctx.remote_read) ++
              (drain p.local_ Ctx.local_write (lout.length + 1) (iread 8192 rin).n
                (iread 8192 rin).bytes lout).trace ++
              (writer_loop p fuel (wrap32 (recv + (iread 8192 rin).n)) (iread 8192 rin).rest
                (drain p.local_ Ctx.local_write (lout.length + 1) (iread 8192 rin).n
                  (iread 8192 rin).bytes lout).rest).trace⟩ := by
          conv => lhs; unfold writer_loop
          simp only [gt_iff_lt, h1, hfail, if_true, if_false, Bool.false_eq_true]
        obtain ⟨i1, i2, i3, i4⟩ := ih (wrap32 (recv + (iread 8192 rin).n)) (iread 8192 rin).rest
          (drain p.local_ Ctx.local_write (lout.length + 1) (iread 8192 rin).n
            (iread 8192 rin).bytes lout).rest (by omega)
        rw [hres]
        simp only [List.append_assoc, hev, wire_append, d2 hfail]
        refine ⟨i1, ?_, ?_, ?_⟩
        · rw [h4]
          exact (List.prefix_append_right_inj _).mpr i2
        · intro hne
          rw [h4, i3 hne]
        · intro he
          obtain ⟨buf, m, hm, hlt⟩ := i4 he
          exact ⟨buf, m, List.mem_append_right _ (List.mem_append_right _ hm), hlt⟩

/-- C3: for a flow past its handshake, whatever the local socket delivers
and whatever the writes to the upstream return, the reader pump leaves through
one of its three exits and the bytes it has put on the upstream are, in order,
a prefix of the bytes of the local stream up to its end or first error: all of
them unless a write failed (in which case some `iwrite` in the trace has a
negative result).  The same holds for `writer` from the upstream to the local
socket. -/
theorem pumps_relay_in_order (env : Env) (p : proxy) (g : Globals)
    (rin : List ReadEv) (lout : List WriteEv) :
    (reader_loop p (sockSize env.local_in + 1) p.sent env.local_in env.remote_out).exit
        ≠ PumpExit.out_of_steps ∧
      wire p.remote (relay env p g).trace =
        wire p.remote
          (reader_loop p (sockSize env.local_in + 1) p.sent env.local_in env.remote_out).trace ∧
      wire p.remote (relay env p g).trace <+: streamOf env.local_in ∧
      ((reader_loop p (sockSize env.local_in + 1) p.sent env.local_in env.remote_out).exit
          ≠ PumpExit.write_error →
        wire p.remote (relay env p g).trace = streamOf env.local_in) ∧
      ((reader_loop p (sockSize env.local_in + 1) p.sent env.local_in env.remote_out).exit
          = PumpExit.write_error →
        ∃ buf m, Event.iwrite p.remote buf m ∈ (relay env p g).trace ∧ m < 0) ∧
      (writer p rin lout).exit ≠ PumpExit.out_of_steps ∧
      wire p.local_ (writer p rin lout).trace <+: streamOf rin ∧
      ((writer p rin lout).exit ≠ PumpExit.write_error →
        wire p.local_ (writer p rin lout).trace = streamOf rin) ∧
      ((writer p rin lout).exit = PumpExit.write_error →
        ∃ buf m, Event.iwrite p.local_ buf m ∈ (writer p rin lout).trace ∧ m < 0) := by
  obtain ⟨r1, r2, r3, r4⟩ := reader_loop_wire p (sockSize env.local_in + 1) p.sent
    env.local_in env.remote_out (by omega)
  obtain ⟨w1, w2, w3, w4⟩ := writer_loop_wire p (sockSize rin + 1) p.recv rin lout (by omega)
  have hrelay : wire p.remote (relay env p g).trace =
      wire p.remote
        (reader_loop p (sockSize env.local_in + 1) p.sent env.local_in env.remote_out).trace := by
    have hafter : ∀ (ev : List Event) (o : Outcome),
        wire p.remote (o.after ev).trace = wire p.remote ev ++ wire p.remote o.trace := by
      intro ev o
      simp only [Outcome.after, wire_append]
    unfold relay
    simp only
    split
    · rw [hafter, wire_at_done, List.append_nil]
      simp [wire, wire_append]
    · rw [hafter, wire_at_done, List.append_nil]
      simp [wire]
  have hmem : ∀ e,
      e ∈ (reader_loop p (sockSize env.local_in + 1) p.sent env.local_in env.remote_out).trace →
      e ∈ (relay env p g).trace := by
    intro e he
    unfold relay
    simp only
    split <;> simp [Outcome.after, he]
  have hwriter : wire p.local_ (writer p rin lout).trace =
      wire p.local_ (writer_loop p (sockSize rin + 1) p.recv rin lout).trace := by
    simp [writer, wire, wire_append]
  refine ⟨r1, hrelay, ?_, ?_, ?_, w1, ?_, ?_, ?_⟩
  · rw [hrelay]; exact r2
  · intro h; rw [hrelay]; exact r3 h
  · intro h
    obtain ⟨buf, m, hm, hlt⟩ := r4 h
    exact ⟨buf, m, hmem _ hm, hlt⟩
  · rw [hwriter]; exact w2
  · intro h; rw [hwriter]; exact w3 h
  · intro h
    obtain ⟨buf, m, hm, hlt⟩ := w4 h
    exact ⟨buf, m, by simp [writer, hm], hlt⟩

/-- The pumps on a sample flow: the client sends `PING`, which the upstream
takes in two writes with an interruption in between, and the upstream sends
`HELLO`, which the client takes in three writes, one of them of zero bytes. -/
theorem pumps_relay_in_order_witness :
    wire flow0.remote (relay env_local_eof flow0 ⟨1, 1⟩).trace = [80, 73, 78, 71] ∧
      wire flow0.local_
        (writer flow0 [ReadEv.data 72 [69, 76], ReadEv.eintr, ReadEv.data 76 [79]]
          [WriteEv.ret 2, WriteEv.ret 0, WriteEv.ret 1, WriteEv.ret 2]).trace
        = [72, 69, 76, 76, 79] :=
  ⟨((pumps_relay_in_order env_local_eof flow0 ⟨1, 1⟩ [] []).2.2.2.1 (by decide)).trans
      (by decide),
    by decide⟩

/-! ## The status check -/

end Proxyt
